import Mathlib

/-!
# AFA Stores scraper (`products.js`): a verification development

A shallow embedding of the class `AFAStoresScraper`.  JavaScript strings are
modelled as sequences of characters (`String`, and `List Char` where the
regular expressions run).  The page driver (puppeteer) and the workbook writer
(xlsx) are external: every awaited driver call is represented by its outcome,
supplied by a script of the run.
-/

set_option autoImplicit false

namespace AFAStoresScraper

/-! ## Strings: `trim`, the two SKU regular expressions -/

/-- ECMAScript `LineTerminator`: the characters that `.` does not match. -/
def isLineTerminator (c : Char) : Bool :=
  c = '\n' || c = '\r' || c = '\u2028' || c = '\u2029'

/-- ECMAScript `WhiteSpace` or `LineTerminator`: what `trim()` strips and what `\s` matches. -/
def isWhiteSpace (c : Char) : Bool :=
  c = '\t' || c = '\n' || c = '\x0b' || c = '\x0c' || c = '\r' || c = ' ' ||
  c = '\u00a0' || c = '\u1680' || (0x2000 ≤ c.toNat && c.toNat ≤ 0x200a) ||
  c = '\u2028' || c = '\u2029' || c = '\u202f' || c = '\u205f' || c = '\u3000' ||
  c = '\ufeff'

/-- The regular-expression atom `.` (no `s` flag). -/
def dot (c : Char) : Bool := !isLineTerminator c

/-- The character class `[A-Z0-9-]`. -/
def skuChar (c : Char) : Bool :=
  ('A' ≤ c && c ≤ 'Z') || ('0' ≤ c && c ≤ '9') || c = '-'

/-- The method `String.prototype.trim` on a character sequence. -/
def trimChars (s : List Char) : List Char :=
  (s.dropWhile isWhiteSpace).rdropWhile isWhiteSpace

/-- The method `String.prototype.trim`. -/
def trim (s : String) : String := ⟨trimChars s.data⟩

/-- A backtracking matcher in continuation style: it is given the input that is
left and answers the text of capture group 1 when the rest of the pattern matches. -/
abbrev Matcher := List Char → Option (List Char)

/-- One character of class `p`, then `k`. -/
def one (p : Char → Bool) (k : Matcher) : Matcher
  | [] => none
  | c :: cs => if p c then k cs else none

/-- Greedy `p*`, then `k`: the longest run is tried first, shorter ones on backtracking. -/
def star (p : Char → Bool) (k : Matcher) : Matcher
  | [] => k []
  | c :: cs =>
    if p c then
      match star p k cs with
      | some r => some r
      | none => k (c :: cs)
    else k (c :: cs)

/-- Greedy `p+`, then `k`. -/
def plus (p : Char → Bool) (k : Matcher) : Matcher := one p (star p k)

/-- A capture group `( x )`: the continuation receives the text `x` consumed. -/
def group (x : Matcher → Matcher) (k : List Char → Matcher) : Matcher :=
  fun s => x (fun rest => k (s.take (s.length - rest.length)) rest) s

/-- The assertion `$` (no `m` flag) closing a pattern whose capture is `cap`. -/
def endOfInput (cap : List Char) : Matcher
  | [] => some cap
  | _ :: _ => none

/-- A literal character. -/
def lit (c : Char) (k : Matcher) : Matcher := one (fun d => d = c) k

/-- The part of `.* - (.+)$` after the `.*`. -/
def sepTail : Matcher := lit ' ' (lit '-' (lit ' ' (group (plus dot) endOfInput)))

/-- The pattern `.* - (.+)$` tried at one start position. -/
def sepPattern : Matcher := star dot sepTail

/-- The pattern `([A-Z0-9-]+)\s*$` tried at one start position. -/
def trailingPattern : Matcher :=
  group (plus skuChar) (fun cap => star isWhiteSpace (endOfInput cap))

/-- The method `String.prototype.match` with a non-global pattern: the leftmost start
position at which the pattern matches decides; `none` is JavaScript's `null`. -/
def search (m : Matcher) : List Char → Option (List Char)
  | [] => m []
  | c :: cs =>
    match m (c :: cs) with
    | some r => some r
    | none => search m cs

/-- JavaScript `a || b` on optional strings: `a` when it is a non-empty string. -/
def orElseStr (a : Option (List Char)) (b : Option (List Char)) : Option (List Char) :=
  match a with
  | some (c :: cs) => some (c :: cs)
  | _ => b

/-- Line 127:
`title.match(/.* - (.+)$/)?.[1]?.trim() || title.match(/([A-Z0-9-]+)\s*$/)?.[1] || ''`. -/
def skuOfTitle (title : List Char) : List Char :=
  match orElseStr (orElseStr ((search sepPattern title).map trimChars)
      (search trailingPattern title)) (some []) with
  | some s => s
  | none => []

/-- JavaScript `a || b` where `a` is a string or `undefined` and `b` a string. -/
def strOr (a : Option String) (b : String) : String :=
  match a with
  | some s => if s = "" then b else s
  | none => b

/-- The UTF-16 code units of a character: one below U+10000, a surrogate pair from there on. -/
def utf16 (c : Char) : List Nat :=
  if c.toNat < 0x10000 then [c.toNat]
  else [0xD800 + (c.toNat - 0x10000) / 0x400, 0xDC00 + (c.toNat - 0x10000) % 0x400]

/-- A JavaScript string as the sequence of its UTF-16 code units, which `length` and
`substring` count. -/
def codeUnits (s : String) : List Nat := s.data.flatMap utf16

/-- The method `String.prototype.substring(indexStart, indexEnd)`, as code units: the result
may end in the first half of a surrogate pair. -/
def substring (s : String) (indexStart indexEnd : Nat) : List Nat :=
  ((codeUnits s).take (max indexStart indexEnd)).drop (min indexStart indexEnd)

/-! ## Data model -/

/-- A category link found on a brand page. -/
structure Category where
  url : String
  name : String
  deriving DecidableEq, Repr

/-- An element of `allProducts`: `{ category, brand, sku, price, comment }`. -/
structure ProductRecord where
  category : String
  brand : String
  sku : String
  price : String
  comment : String
  deriving DecidableEq, Repr

/-- A worksheet row: `{ SKU, 'Selling Price', Comment }`. -/
structure Row where
  SKU : String
  sellingPrice : String
  Comment : String
  deriving DecidableEq, Repr

/-- An object with string keys in insertion order, each with its array. -/
abbrev Groups (α : Type) := List (String × List α)

/-- The object `groupedData`: string keys in insertion order, each with its array of rows. -/
abbrev Grouped := Groups Row

/-- The workbook handed to `XLSX.writeFile`: the appended sheets, in order, each with its
name (UTF-16 code units) and its rows. -/
abbrev Workbook := List (List Nat × List Row)

/-- A rejected promise or thrown error, named after the call that failed. -/
inductive JsError where
  | goto
  | delay
  | waitForSelector
  | evaluate
  | click
  | bookAppendSheet
  | writeFile
  deriving DecidableEq, Repr

/-- The scraper object.  `allProducts` is the field of the class; `requested` and
`written` record, for the statements below, every URL `scrapeProductDetails` was
called with and every workbook `XLSX.writeFile` was called with (and whether that
call succeeded). -/
structure Scraper where
  allProducts : List ProductRecord
  requested : List String
  written : List (Workbook × Bool)
  deriving DecidableEq, Repr

/-! ## What the product page shows: the closure of `scrapeProductDetails` -/

/-- What the closure of `scrapeProductDetails` reads from the document. -/
structure ProductPage where
  /-- The `textContent` of `document.querySelector('h1')`, when there is one. -/
  h1 : Option String
  /-- The `textContent` of `#product-details-full-form span[itemprop='price']`, when there
  is one. -/
  structuredPrice : Option String
  /-- The `textContent` of every `[class*="price"]` element, in document order. -/
  priceStyled : List String
  /-- The `textContent` of `#special-coupon-message-container b`, when there is one. -/
  couponMessage : Option String
  deriving DecidableEq, Repr

/-- The expression `el?.textContent.trim() || ''`. -/
def textOrEmpty (el : Option String) : String := strOr (el.map trim) ""

/-- Line 126: `const title = document.querySelector('h1')?.textContent.trim() || ''`. -/
def pageTitle (page : ProductPage) : String := textOrEmpty page.h1

/-- Line 127, on strings. -/
def pageSku (page : ProductPage) : String := ⟨skuOfTitle (pageTitle page).data⟩

/-- Line 128: `priceEl`. -/
def priceEl (page : ProductPage) : String := textOrEmpty page.structuredPrice

/-- Lines 129-130: `priceEl || Array.from(...).map(el => el.textContent.trim()).find(p => p.includes('$')) || ''`. -/
def pagePrice (page : ProductPage) : String :=
  if priceEl page = "" then
    strOr ((page.priceStyled.map trim).find? (fun p => p.data.contains '$')) ""
  else priceEl page

/-- Line 131: `comment`. -/
def pageComment (page : ProductPage) : String := textOrEmpty page.couponMessage

/-- The closure passed to `page.evaluate` in `scrapeProductDetails` (lines 125-134). -/
def evaluateProduct (page : ProductPage) (category brand : String) : ProductRecord :=
  { category := category, brand := brand, sku := pageSku page, price := pagePrice page,
    comment := pageComment page }

/-- The awaited calls of one `scrapeProductDetails`, with the `delay(1000)` that follows it
in `scrapeCategory`. -/
structure ProductVisit where
  goto : Except JsError Unit
  delay : Except JsError Unit
  evaluate : Except JsError ProductPage
  pause : Except JsError Unit

/-- The record of the `catch` of `scrapeProductDetails`, also the placeholder of `scrapeCategory`. -/
def blankRecord (category brand : String) : ProductRecord :=
  { category := category, brand := brand, sku := "", price := "", comment := "" }

/-- The `try` block of `scrapeProductDetails` (lines 122-134). -/
def scrapeProductDetailsTry (v : ProductVisit) (category brand : String) :
    Except JsError ProductRecord :=
  match v.goto with
  | .error e => .error e
  | .ok _ =>
    match v.delay with
    | .error e => .error e
    | .ok _ =>
      match v.evaluate with
      | .error e => .error e
      | .ok page => .ok (evaluateProduct page category brand)

/-- The method `scrapeProductDetails(url, category, brand)` (lines 120-139); the page the driver
shows for `url` is part of `v`. -/
def scrapeProductDetails (v : ProductVisit) (_url category brand : String) :
    Except JsError ProductRecord :=
  match scrapeProductDetailsTry v category brand with
  | .ok r => .ok r
  | .error _ => .ok (blankRecord category brand)

/-! ## Listing pages: `scrapeCategory` -/

/-- An anchor `a.facets-item-cell-grid-title`: its `href` property and its `href` attribute. -/
structure Anchor where
  href : String
  hrefAttribute : Option String
  deriving DecidableEq, Repr

/-- Line 74: `el.href.startsWith('http') ? el.href : 'https://www.afastores.com' + el.getAttribute('href')`. -/
def resolveHref (el : Anchor) : String :=
  if "http".data.isPrefixOf el.href.data then el.href
  else "https://www.afastores.com" ++ el.hrefAttribute.getD "null"

/-- The method `Set.prototype.add` on the insertion-ordered elements of a `Set`. -/
def setAdd (s : List String) (x : String) : List String :=
  if x ∈ s then s else s ++ [x]

/-- The array `Array.from(new Set(xs))`: the elements are added one by one, in order. -/
def arrayFromSet (xs : List String) : List String := xs.foldl setAdd []

/-- Lines 72-75: the result of the `evaluate` that collects the product links. -/
def productLinks (anchors : List Anchor) : List String :=
  arrayFromSet (anchors.map resolveHref)

/-- The element `nextBtn`: whether its class list has `disabled`, and its `href`
(`undefined` when the element has none). -/
structure NextBtn where
  disabled : Bool
  href : Option String
  deriving DecidableEq, Repr

/-- Lines 91-94, as the truth value `while (hasNextPage)` and `if (hasNextPage)` test:
`nextBtn && !nextBtn.classList.contains('disabled') && nextBtn.href`. -/
def hasNext (nextBtn : Option NextBtn) : Bool :=
  match nextBtn with
  | none => false
  | some b => !b.disabled && (match b.href with | some h => h ≠ "" | none => false)

/-- The awaited calls of one pass of the `while` loop. -/
structure ListingPage where
  waitForSelector : Except JsError Unit
  anchors : Except JsError (List Anchor)
  /-- The driver during the `i`-th pass of the `for` loop. -/
  visits : Nat → ProductVisit
  nextBtn : Except JsError (Option NextBtn)
  click : Except JsError Unit
  delay : Except JsError Unit

/-- The `for` loop of lines 77-89, from index `i` on, over the links that are left. -/
def scrapeProducts (visits : Nat → ProductVisit) (category brand : String) :
    Nat → List String → List ProductRecord × Scraper → List ProductRecord × Scraper
  | _, [], acc => acc
  | i, productUrl :: rest, (categoryProducts, self) =>
    let self1 := { self with requested := self.requested ++ [productUrl] }
    match scrapeProductDetails (visits i) productUrl category brand with
    | .ok productData =>
      let pushed := (categoryProducts ++ [productData],
        { self1 with allProducts := self1.allProducts ++ [productData] })
      match (visits i).pause with
      | .ok _ => scrapeProducts visits category brand (i + 1) rest pushed
      | .error _ => scrapeProducts visits category brand (i + 1) rest pushed
    | .error _ => scrapeProducts visits category brand (i + 1) rest (categoryProducts, self1)

/-- One pass of the `while` loop (lines 69-103): the new `hasNextPage`, `categoryProducts`
and scraper.  Its `catch` sets `hasNextPage = false`. -/
def scrapePage (p : ListingPage) (category brand : String)
    (acc : List ProductRecord × Scraper) : Bool × List ProductRecord × Scraper :=
  match p.waitForSelector with
  | .error _ => (false, acc)
  | .ok _ =>
    match p.anchors with
    | .error _ => (false, acc)
    | .ok anchors =>
      let acc1 := scrapeProducts p.visits category brand 0 (productLinks anchors) acc
      match p.nextBtn with
      | .error _ => (false, acc1)
      | .ok nextBtn =>
        if hasNext nextBtn then
          match p.click with
          | .error _ => (false, acc1)
          | .ok _ =>
            match p.delay with
            | .error _ => (false, acc1)
            | .ok _ => (true, acc1)
        else (false, acc1)

/-- The `while (hasNextPage)` loop over the passes the driver's script describes.
`none`: the script ends while `hasNextPage` is still true, so it does not tell how
the loop goes on. -/
def paginate (category brand : String) :
    List ListingPage → List ProductRecord × Scraper → Option (List ProductRecord × Scraper)
  | [], _ => none
  | p :: ps, acc =>
    match scrapePage p category brand acc with
    | (true, acc1) => paginate category brand ps acc1
    | (false, acc1) => some acc1

/-! ## The snapshot: `saveCurrentDataToExcel` -/

/-- Line 144: the template literal with brand, `" - "` and category. -/
def groupKey (r : ProductRecord) : String := r.brand ++ " - " ++ r.category

/-- Line 146: the row pushed for a record. -/
def toRow (r : ProductRecord) : Row :=
  { SKU := r.sku, sellingPrice := r.price, Comment := r.comment }

/-- Lines 145-146: `if (!groupedData[key]) groupedData[key] = []; groupedData[key].push(row)`.
Every key holds `" - "`, so none is a property that `{}` inherits, and none is an
integer index: the entries keep their insertion order. -/
def pushRow {α : Type} (groupedData : Groups α) (key : String) (row : α) : Groups α :=
  if groupedData.any (fun e => e.1 = key) then
    groupedData.map (fun e => if e.1 = key then (e.1, e.2 ++ [row]) else e)
  else groupedData ++ [(key, [row])]

/-- Lines 142-147, for any content of the rows: the object after the `forEach` over
`allProducts` that pushes `row r` under the key of `r`. -/
def groupRecords {α : Type} (row : ProductRecord → α) (allProducts : List ProductRecord) :
    Groups α :=
  allProducts.foldl (fun g r => pushRow g (groupKey r) (row r)) []

/-- Lines 142-147: `groupedData` after the `forEach` over `allProducts`. -/
def groupData (allProducts : List ProductRecord) : Grouped := groupRecords toRow allProducts

/-- The calls into `XLSX` of one `saveCurrentDataToExcel`. -/
structure SaveRun where
  /-- Lines 151-153 for the `i`-th entry: `json_to_sheet` and `book_append_sheet`. -/
  appendSheet : Nat → Except JsError Unit
  /-- Line 156: `XLSX.writeFile`. -/
  writeFile : Except JsError Unit

/-- Lines 150-154: the `forEach` over `Object.entries(groupedData)` from the `i`-th entry on;
each entry gives a sheet named `sheetName.substring(0, 31)`.  A call that throws ends it. -/
def appendSheets (appendSheet : Nat → Except JsError Unit) :
    Nat → Grouped → Workbook → Except JsError Workbook
  | _, [], wb => .ok wb
  | i, (sheetName, rows) :: rest, wb =>
    match appendSheet i with
    | .error e => .error e
    | .ok _ => appendSheets appendSheet (i + 1) rest (wb ++ [(substring sheetName 0 31, rows)])

/-- The method `saveCurrentDataToExcel()` (lines 141-158). -/
def saveCurrentDataToExcel (xlsx : SaveRun) (self : Scraper) : Except JsError Unit × Scraper :=
  match appendSheets xlsx.appendSheet 0 (groupData self.allProducts) [] with
  | .error e => (.error e, self)
  | .ok wb =>
    match xlsx.writeFile with
    | .ok _ => (.ok (), { self with written := self.written ++ [(wb, true)] })
    | .error e => (.error e, { self with written := self.written ++ [(wb, false)] })

/-- The awaited calls of one `scrapeCategory`. -/
structure CategoryRun where
  goto : Except JsError Unit
  delay : Except JsError Unit
  pages : List ListingPage
  /-- The calls into `XLSX` of the `saveCurrentDataToExcel` at line 111. -/
  save : SaveRun
  /-- The calls into `XLSX` of the `saveCurrentDataToExcel` at line 116, in the `catch`. -/
  saveInCatch : SaveRun

/-- The `catch` of `scrapeCategory` (lines 113-117). -/
def scrapeCategoryCatch (run : CategoryRun) (category : Category) (brandName : String)
    (self : Scraper) : Except JsError Unit × Scraper :=
  saveCurrentDataToExcel run.saveInCatch
    { self with allProducts := self.allProducts ++ [blankRecord category.name brandName] }

/-- Lines 106-109: the placeholder of a category without products. -/
def pushPlaceholder (category : Category) (brandName : String)
    (acc : List ProductRecord × Scraper) : Scraper :=
  if acc.1.length = 0 then
    let categoryProducts := acc.1 ++ [blankRecord category.name brandName]
    { acc.2 with allProducts := acc.2.allProducts ++ categoryProducts }
  else acc.2

/-- The method `scrapeCategory(category, brandName)` (lines 59-118).  `none`: the script of the
run ends before the pagination does. -/
def scrapeCategory (run : CategoryRun) (category : Category) (brandName : String)
    (self : Scraper) : Option (Except JsError Unit × Scraper) :=
  match run.goto with
  | .error _ => some (scrapeCategoryCatch run category brandName self)
  | .ok _ =>
    match run.delay with
    | .error _ => some (scrapeCategoryCatch run category brandName self)
    | .ok _ =>
      match paginate category.name brandName run.pages ([], self) with
      | none => none
      | some acc =>
        match saveCurrentDataToExcel run.save (pushPlaceholder category brandName acc) with
        | (.ok _, self1) => some (.ok (), self1)
        | (.error _, self1) => some (scrapeCategoryCatch run category brandName self1)

/-! ## The categories of a brand: `scrapeBrandCategories` -/

/-- The method `delay(ms)` (lines 31-33): a promise that `setTimeout` resolves; nothing
rejects it.  (The scripts of `scrapeProductDetails` and `scrapeCategory` above allow for
more: there a `delay` may also fail.) -/
def delay (_ms : Nat) : Except JsError Unit := .ok ()

/-- An anchor `a.facets-category-cell-anchor`: its `href` property, its `href` attribute and
its `textContent`. -/
structure CategoryAnchor where
  href : String
  hrefAttribute : Option String
  textContent : String
  deriving DecidableEq, Repr

/-- Lines 43-46: the object built for one category anchor. -/
def categoryLink (el : CategoryAnchor) : Category :=
  { url := resolveHref { href := el.href, hrefAttribute := el.hrefAttribute },
    name := trim el.textContent }

/-- The awaited calls of one `scrapeBrandCategories`. -/
structure BrandRun where
  goto : Except JsError Unit
  waitForSelector : Except JsError Unit
  /-- The `evaluate` of lines 41-47: the category anchors of the page, in document order. -/
  anchors : Except JsError (List CategoryAnchor)
  /-- The driver and the workbook writer during the `i`-th pass of the `for` loop. -/
  runs : Nat → CategoryRun

/-- The `for` loop of lines 49-52, from the `i`-th category on.  An error that
`scrapeCategory` raises ends the loop. -/
def scrapeCategories (runs : Nat → CategoryRun) (brandName : String) :
    Nat → List Category → Scraper → Option (Except JsError Unit × Scraper)
  | _, [], self => some (.ok (), self)
  | i, category :: rest, self =>
    match scrapeCategory (runs i) category brandName self with
    | none => none
    | some (.error e, self1) => some (.error e, self1)
    | some (.ok _, self1) =>
      match delay 2000 with
      | .error e => some (.error e, self1)
      | .ok _ => scrapeCategories runs brandName (i + 1) rest self1

/-- The `try` block of `scrapeBrandCategories` (lines 37-52). -/
def scrapeBrandCategoriesTry (run : BrandRun) (brandName : String) (self : Scraper) :
    Option (Except JsError Unit × Scraper) :=
  match run.goto with
  | .error e => some (.error e, self)
  | .ok _ =>
    match delay 3000 with
    | .error e => some (.error e, self)
    | .ok _ =>
      match run.waitForSelector with
      | .error e => some (.error e, self)
      | .ok _ =>
        match run.anchors with
        | .error e => some (.error e, self)
        | .ok anchors => scrapeCategories run.runs brandName 0 (anchors.map categoryLink) self

/-- The method `scrapeBrandCategories(brandUrl, brandName)` (lines 35-57): its `catch` logs
the error and the method returns. -/
def scrapeBrandCategories (run : BrandRun) (_brandUrl brandName : String) (self : Scraper) :
    Option (Except JsError Unit × Scraper) :=
  match scrapeBrandCategoriesTry run brandName self with
  | none => none
  | some (.ok _, self1) => some (.ok (), self1)
  | some (.error _, self1) => some (.ok (), self1)

/-! ## Reading the results -/

/-- The array `groupedData[key]`, read as `[]` when the key is absent. -/
def rowsFor {α : Type} (groupedData : Groups α) (key : String) : List α :=
  match groupedData.find? (fun e => e.1 = key) with
  | some e => e.2
  | none => []

/-- The keys of `groupedData`, in the order of `Object.entries`. -/
def keysOf {α : Type} (groupedData : Groups α) : List String := groupedData.map Prod.fst

/-- The number of rows in all the arrays of `groupedData`. -/
def totalRows {α : Type} (groupedData : Groups α) : Nat :=
  (groupedData.map (fun e => e.2.length)).sum

/-- The `forEach` of lines 143-147 with every row tagged by the record it comes from: in
which array the row of each record is put. -/
def placement (allProducts : List ProductRecord) : Groups ProductRecord :=
  groupRecords (fun r => r) allProducts

/-- Every call into `XLSX` of a `saveCurrentDataToExcel` succeeds. -/
def SaveSucceeds (xlsx : SaveRun) : Prop :=
  (∀ i, xlsx.appendSheet i = .ok ()) ∧ xlsx.writeFile = .ok ()

/-- Whether a pass of the `while` loop leaves `hasNextPage` true: the wait and both
evaluations succeed, the next control qualifies, and the click and the delay succeed. -/
def pageContinues (p : ListingPage) : Bool :=
  match p.waitForSelector, p.anchors, p.nextBtn, p.click, p.delay with
  | .ok _, .ok _, .ok nextBtn, .ok _, .ok _ => hasNext nextBtn
  | _, _, _, _, _ => false

/-- The links a pass of the `while` loop hands to `scrapeProductDetails`. -/
def pageLinks (p : ListingPage) : List String :=
  match p.waitForSelector, p.anchors with
  | .ok _, .ok anchors => productLinks anchors
  | _, _ => []

/-- The script shows the end of the pagination: some pass sets `hasNextPage` to false. -/
def paginationEnds (pages : List ListingPage) : Bool := pages.any (fun p => !pageContinues p)

/-- The script determines the run of `scrapeCategory` up to its end: the `while` loop is
not reached, or the script shows the end of the pagination. -/
def completes (run : CategoryRun) : Bool :=
  match run.goto, run.delay with
  | .ok _, .ok _ => paginationEnds run.pages
  | _, _ => true

/-! ## Sample inputs -/

/-- A product page that shows only a heading. -/
def headingOnly (h1 : String) : ProductPage :=
  { h1 := some h1, structuredPrice := none, priceStyled := [], couponMessage := none }

/-- A visit on which every awaited call succeeds and the driver shows `page`. -/
def visitOk (page : ProductPage) : ProductVisit :=
  { goto := .ok (), delay := .ok (), evaluate := .ok page, pause := .ok () }

/-- A visit whose navigation fails. -/
def visitGotoFails (page : ProductPage) : ProductVisit :=
  { goto := .error .goto, delay := .ok (), evaluate := .ok page, pause := .ok () }

/-- A product page with an empty structured price element next to a price-styled element. -/
def emptyStructuredPrice : ProductPage :=
  { h1 := some "Accent Chair MF5678", structuredPrice := some "",
    priceStyled := ["Sale $129.00"], couponMessage := none }

/-- A product page with a structured price element among price-styled elements. -/
def bothPrices : ProductPage :=
  { h1 := some "Accent Chair MF5678", structuredPrice := some " $99.00 ",
    priceStyled := ["Was $129.00", "$99.00"], couponMessage := none }

/-- A record of the brand `"Martin Furniture"` in the category `"Office - Desks"`. -/
def officeDesk : ProductRecord :=
  { category := "Office - Desks", brand := "Martin Furniture", sku := "MF-1234",
    price := "$99.00", comment := "" }

/-- A record of the brand `"Martin Furniture - Office"` in the category `"Desks"`. -/
def officeBrandDesk : ProductRecord :=
  { category := "Desks", brand := "Martin Furniture - Office", sku := "IMTE-5678",
    price := "$120.00", comment := "" }

/-- A record of the brand `"Martin Furniture"` in the category `"Desks"`. -/
def plainDesk : ProductRecord :=
  { category := "Desks", brand := "Martin Furniture", sku := "MF-1", price := "$1.00",
    comment := "" }

/-- The scraper right after its constructor: `allProducts = []`. -/
def newScraper : Scraper := { allProducts := [], requested := [], written := [] }

/-- The category `"Chairs"`. -/
def chairs : Category :=
  { url := "https://www.afastores.com/brands/martin-furniture/chairs", name := "Chairs" }

/-- A last listing page: three product links, two of them the same; every product page
shows `bothPrices`; there is no next control. -/
def duplicateLinksPage : ListingPage :=
  { waitForSelector := .ok (),
    anchors := .ok [⟨"https://www.afastores.com/p/1", some "/p/1"⟩, ⟨"/p/2", some "/p/2"⟩,
      ⟨"https://www.afastores.com/p/1", some "/p/1"⟩],
    visits := fun _ => visitOk bothPrices,
    nextBtn := .ok none, click := .ok (), delay := .ok () }

/-- A listing page whose items never show up: the wait times out. -/
def timedOutPage : ListingPage :=
  { waitForSelector := .error .waitForSelector, anchors := .ok [],
    visits := fun _ => visitGotoFails bothPrices,
    nextBtn := .ok none, click := .ok (), delay := .ok () }

/-- The calls into `XLSX` all succeed. -/
def saveOk : SaveRun := { appendSheet := fun _ => .ok (), writeFile := .ok () }

/-- The workbook cannot be written: `XLSX.writeFile` throws. -/
def saveWriteFails : SaveRun := { appendSheet := fun _ => .ok (), writeFile := .error .writeFile }

/-- A run in which everything succeeds, over one listing page. -/
def onePageRun : CategoryRun :=
  { goto := .ok (), delay := .ok (), pages := [duplicateLinksPage], save := saveOk,
    saveInCatch := saveOk }

/-- A run in which the listing never loads and the first write of the workbook fails. -/
def firstWriteFailsRun : CategoryRun :=
  { goto := .ok (), delay := .ok (), pages := [timedOutPage], save := saveWriteFails,
    saveInCatch := saveOk }

/-- A run in which the navigation to the category fails and so does the write of the
workbook in the `catch`. -/
def writeFailsRun : CategoryRun :=
  { goto := .error .goto, delay := .ok (), pages := [], save := saveOk,
    saveInCatch := saveWriteFails }

/-- The category `"Home Office🛋 Desks"`: with the brand `"Martin Furniture"` its key has 38
code units, the 31st and 32nd being the surrogate pair of U+1F6CB. -/
def homeOffice : Category :=
  { url := "https://www.afastores.com/brands/martin-furniture/home-office",
    name := "Home Office🛋 Desks" }

/-- A brand page with the categories `"Chairs"` and `"Desks"`; in the first the navigation
and the write in the `catch` fail, in the second everything succeeds. -/
def firstCategoryRaises : BrandRun :=
  { goto := .ok (), waitForSelector := .ok (),
    anchors := .ok [⟨"https://www.afastores.com/c/chairs", some "/c/chairs", " Chairs "⟩,
      ⟨"https://www.afastores.com/c/desks", some "/c/desks", "Desks"⟩],
    runs := fun i => if i = 0 then writeFailsRun else onePageRun }

/-- The same brand page when, in the first category, the listing never loads and only the
first write of the workbook fails. -/
def firstCategoryRecovers : BrandRun :=
  { goto := .ok (), waitForSelector := .ok (),
    anchors := .ok [⟨"https://www.afastores.com/c/chairs", some "/c/chairs", " Chairs "⟩,
      ⟨"https://www.afastores.com/c/desks", some "/c/desks", "Desks"⟩],
    runs := fun i => if i = 0 then firstWriteFailsRun else onePageRun }

/-- A second record of the brand `"Martin Furniture"` in the category `"Office - Desks"`. -/
def officeHutch : ProductRecord :=
  { category := "Office - Desks", brand := "Martin Furniture", sku := "MF-77",
    price := "$450.00", comment := "Free shipping" }

/-! ## The matcher combinators -/

theorem one_eq_some {p : Char → Bool} {k : Matcher} {s r : List Char}
    (h : one p k s = some r) : ∃ c cs, s = c :: cs ∧ p c = true ∧ k cs = some r := by
  cases s with
  | nil => simp [one] at h
  | cons c cs =>
    by_cases hp : p c = true
    · simp only [one, hp, if_true] at h
      exact ⟨c, cs, rfl, hp, h⟩
    · simp [one, hp] at h

theorem star_eq_none {p : Char → Bool} {k : Matcher} :
    ∀ s, star p k s = none → ∀ a b, s = a ++ b → (∀ c ∈ a, p c = true) → k b = none := by
  intro s
  induction s with
  | nil =>
    intro h a b hs _
    obtain ⟨rfl, rfl⟩ := List.append_eq_nil.mp hs.symm
    simpa [star] using h
  | cons c cs ih =>
    intro h a b hs ha
    have hk : k (c :: cs) = none ∧ (p c = true → star p k cs = none) := by
      unfold star at h
      by_cases hp : p c = true
      · simp only [hp, if_true] at h
        cases hst : star p k cs with
        | none => rw [hst] at h; exact ⟨h, fun _ => rfl⟩
        | some r => rw [hst] at h; simp at h
      · simp only [hp] at h
        exact ⟨by simpa using h, fun h' => absurd h' hp⟩
    cases a with
    | nil =>
      simp only [List.nil_append] at hs
      subst hs
      exact hk.1
    | cons x a' =>
      simp only [List.cons_append, List.cons.injEq] at hs
      obtain ⟨rfl, rfl⟩ := hs
      exact ih (hk.2 (ha _ (List.mem_cons_self _ _))) a' b rfl
        (fun d hd => ha d (List.mem_cons_of_mem _ hd))

theorem star_eq_some {p : Char → Bool} {k : Matcher} :
    ∀ s r, star p k s = some r → ∃ a b, s = a ++ b ∧ (∀ c ∈ a, p c = true) ∧ k b = some r ∧
      ∀ a' b', s = a' ++ b' → (∀ c ∈ a', p c = true) → a.length < a'.length → k b' = none := by
  intro s
  induction s with
  | nil =>
    intro r h
    refine ⟨[], [], rfl, by simp, by simpa [star] using h, ?_⟩
    intro a' b' hs _ hlt
    obtain ⟨rfl, rfl⟩ := List.append_eq_nil.mp hs.symm
    simp at hlt
  | cons c cs ih =>
    intro r h
    unfold star at h
    by_cases hp : p c = true
    · simp only [hp, if_true] at h
      cases hst : star p k cs with
      | some r' =>
        rw [hst] at h
        simp only [Option.some.injEq] at h
        subst h
        obtain ⟨a, b, hs, ha, hk, hmax⟩ := ih r' hst
        refine ⟨c :: a, b, by simp [hs], ?_, hk, ?_⟩
        · intro d hd
          rcases List.mem_cons.mp hd with rfl | hd
          · exact hp
          · exact ha d hd
        · intro a' b' hs' ha' hlt
          cases a' with
          | nil => simp at hlt
          | cons x a'' =>
            simp only [List.cons_append, List.cons.injEq] at hs'
            exact hmax a'' b' hs'.2 (fun d hd => ha' d (List.mem_cons_of_mem _ hd))
              (by simpa using hlt)
      | none =>
        rw [hst] at h
        refine ⟨[], c :: cs, rfl, by simp, h, ?_⟩
        intro a' b' hs' ha' hlt
        cases a' with
        | nil => simp at hlt
        | cons x a'' =>
          simp only [List.cons_append, List.cons.injEq] at hs'
          exact star_eq_none cs hst a'' b' hs'.2 (fun d hd => ha' d (List.mem_cons_of_mem _ hd))
    · simp only [hp] at h
      refine ⟨[], c :: cs, rfl, by simp, by simpa using h, ?_⟩
      intro a' b' hs' ha' hlt
      cases a' with
      | nil => simp at hlt
      | cons x a'' =>
        simp only [List.cons_append, List.cons.injEq] at hs'
        exact absurd (hs'.1 ▸ ha' x (List.mem_cons_self _ _)) hp

theorem star_all {p : Char → Bool} {k : Matcher} {r : List Char} (hk : k [] = some r) :
    ∀ s, (∀ c ∈ s, p c = true) → star p k s = some r := by
  intro s
  induction s with
  | nil => intro _; simpa [star] using hk
  | cons c cs ih =>
    intro hs
    unfold star
    rw [if_pos (hs c (List.mem_cons_self _ _)), ih (fun d hd => hs d (List.mem_cons_of_mem _ hd))]

theorem search_eq_none {m : Matcher} :
    ∀ s, search m s = none → ∀ a b, s = a ++ b → m b = none := by
  intro s
  induction s with
  | nil =>
    intro h a b hs
    obtain ⟨rfl, rfl⟩ := List.append_eq_nil.mp hs.symm
    simpa [search] using h
  | cons c cs ih =>
    intro h a b hs
    unfold search at h
    cases hm : m (c :: cs) with
    | some r => rw [hm] at h; simp at h
    | none =>
      rw [hm] at h
      cases a with
      | nil =>
        simp only [List.nil_append] at hs
        subst hs
        exact hm
      | cons x a' =>
        simp only [List.cons_append, List.cons.injEq] at hs
        exact ih h a' b hs.2

theorem search_eq_some {m : Matcher} :
    ∀ s r, search m s = some r → ∃ a b, s = a ++ b ∧ m b = some r ∧
      ∀ a' b', s = a' ++ b' → a'.length < a.length → m b' = none := by
  intro s
  induction s with
  | nil =>
    intro r h
    exact ⟨[], [], rfl, by simpa [search] using h, fun a' b' _ hlt => by simp at hlt⟩
  | cons c cs ih =>
    intro r h
    unfold search at h
    cases hm : m (c :: cs) with
    | some r' =>
      rw [hm] at h
      simp only [Option.some.injEq] at h
      subst h
      exact ⟨[], c :: cs, rfl, hm, fun a' b' _ hlt => by simp at hlt⟩
    | none =>
      rw [hm] at h
      obtain ⟨a, b, hs, hb, hmin⟩ := ih r h
      refine ⟨c :: a, b, by simp [hs], hb, ?_⟩
      intro a' b' hs' hlt
      cases a' with
      | nil =>
        simp only [List.nil_append] at hs'
        subst hs'
        exact hm
      | cons x a'' =>
        simp only [List.cons_append, List.cons.injEq] at hs'
        exact hmin a'' b' hs'.2 (by simpa using hlt)

theorem group_plus_eq_some {p : Char → Bool} {K : List Char → Matcher} {s r : List Char}
    (h : group (plus p) K s = some r) :
    ∃ a b, s = a ++ b ∧ a ≠ [] ∧ (∀ c ∈ a, p c = true) ∧ K a b = some r := by
  unfold group plus at h
  obtain ⟨c, cs, rfl, hc, hst⟩ := one_eq_some h
  obtain ⟨a, b, rfl, ha, hk, -⟩ := star_eq_some _ _ hst
  refine ⟨c :: a, b, rfl, by simp, ?_, ?_⟩
  · intro d hd
    rcases List.mem_cons.mp hd with rfl | hd
    · exact hc
    · exact ha d hd
  · have htake : (c :: (a ++ b)).take ((c :: (a ++ b)).length - b.length) = c :: a := by
      have : (c :: (a ++ b)).length - b.length = a.length + 1 := by
        simp only [List.length_cons, List.length_append]; omega
      rw [this, List.take_succ_cons, List.take_left]
    rw [htake] at hk
    exact hk

theorem group_plus_all {p : Char → Bool} {K : List Char → Matcher} {s r : List Char}
    (hs : s ≠ []) (hp : ∀ c ∈ s, p c = true) (hK : K s [] = some r) :
    group (plus p) K s = some r := by
  cases s with
  | nil => exact absurd rfl hs
  | cons c cs =>
    unfold group plus one
    simp only [hp c (List.mem_cons_self _ _), if_true]
    apply star_all
    · simpa using hK
    · exact fun d hd => hp d (List.mem_cons_of_mem _ hd)

theorem endOfInput_eq_some {cap b r : List Char} (h : endOfInput cap b = some r) :
    b = [] ∧ r = cap := by
  cases b with
  | nil => simp only [endOfInput, Option.some.injEq] at h; exact ⟨rfl, h.symm⟩
  | cons x xs => simp [endOfInput] at h

theorem sepPattern_eq : sepPattern = star dot sepTail := rfl

theorem sepTail_eq_some {b r : List Char} (h : sepTail b = some r) :
    b = ' ' :: '-' :: ' ' :: r ∧ r ≠ [] ∧ ∀ c ∈ r, dot c = true := by
  unfold sepTail lit at h
  obtain ⟨c1, b1, rfl, h1, h⟩ := one_eq_some h
  obtain ⟨c2, b2, rfl, h2, h⟩ := one_eq_some h
  obtain ⟨c3, b3, rfl, h3, h⟩ := one_eq_some h
  obtain ⟨x, y, rfl, hx, hdot, hk⟩ := group_plus_eq_some h
  obtain ⟨rfl, rfl⟩ := endOfInput_eq_some hk
  simp only [decide_eq_true_eq] at h1 h2 h3
  subst h1 h2 h3
  exact ⟨by simp, hx, hdot⟩

theorem sepTail_of {r : List Char} (hr : r ≠ []) (hdot : ∀ c ∈ r, dot c = true) :
    sepTail (' ' :: '-' :: ' ' :: r) = some r := by
  unfold sepTail lit
  simp only [one, decide_True, if_true]
  exact group_plus_all hr hdot rfl

theorem separator_dot : ∀ c ∈ [' ', '-', ' '], dot c = true := by decide

/-- Rule (a) on character sequences: when the text after the last `" - "` is not empty
and has no line terminator, the first pattern captures exactly that text. -/
theorem search_sepPattern {t pre post : List Char}
    (ht : t = pre ++ [' ', '-', ' '] ++ post)
    (hlast : ∀ pre' post', t = pre' ++ [' ', '-', ' '] ++ post' → pre'.length ≤ pre.length)
    (hpost : post ≠ []) (hdot : ∀ c ∈ post, dot c = true) :
    search sepPattern t = some post := by
  have hgood : sepTail ([' ', '-', ' '] ++ post) = some post := sepTail_of hpost hdot
  cases hsearch : search sepPattern t with
  | none =>
    have h1 := search_eq_none t hsearch pre ([' ', '-', ' '] ++ post) (by simp [ht])
    rw [sepPattern_eq] at h1
    have h2 : sepTail ([' ', '-', ' '] ++ post) = none := star_eq_none _ h1 [] _ rfl (by simp)
    rw [hgood] at h2
    exact absurd h2 (by simp)
  | some r =>
    obtain ⟨a, b, hab, hb, -⟩ := search_eq_some t r hsearch
    rw [sepPattern_eq] at hb
    obtain ⟨a2, b2, rfl, ha2, hk, hmax⟩ := star_eq_some _ _ hb
    obtain ⟨rfl, hr, hrdot⟩ := sepTail_eq_some hk
    have hle := hlast (a ++ a2) r (by simp [hab])
    have heq : (a ++ a2) ++ ([' ', '-', ' '] ++ r) = pre ++ ([' ', '-', ' '] ++ post) := by
      rw [← List.append_assoc pre, ← ht, hab]; simp
    rcases List.append_eq_append_iff.mp heq with ⟨d, hpre, hd⟩ | ⟨d, hpre, hd⟩
    · cases d with
      | nil =>
        simp only [List.nil_append] at hd
        have := List.append_cancel_left hd
        rw [this]
      | cons x d' =>
        exfalso
        have hdall : ∀ c ∈ x :: d', dot c = true := by
          intro c hc
          have hmem : c ∈ [' ', '-', ' '] ++ r := by rw [hd]; exact List.mem_append_left _ hc
          rcases List.mem_append.mp hmem with h | h
          · exact separator_dot c h
          · exact hrdot c h
        have hnone : sepTail ([' ', '-', ' '] ++ post) = none :=
          hmax (a2 ++ (x :: d')) ([' ', '-', ' '] ++ post)
          (by
            have : ' ' :: '-' :: ' ' :: r = [' ', '-', ' '] ++ r := rfl
            rw [this, hd]; simp)
          (by
            intro c hc
            rcases List.mem_append.mp hc with h | h
            · exact ha2 c h
            · exact hdall c h)
          (by simp)
        rw [hgood] at hnone
        exact absurd hnone (by simp)
    · have hdnil : d = [] := by
        have hlen := congrArg List.length hpre
        simp only [List.length_append] at hlen hle
        exact List.eq_nil_of_length_eq_zero (by omega)
      subst hdnil
      simp only [List.nil_append] at hd
      have := List.append_cancel_left hd
      rw [this]

/-- Without `" - "` in the text the first pattern does not match. -/
theorem search_sepPattern_none {t : List Char} (hno : ¬ ([' ', '-', ' '] <:+: t)) :
    search sepPattern t = none := by
  cases hsearch : search sepPattern t with
  | none => rfl
  | some r =>
    exfalso
    obtain ⟨a, b, hab, hb, -⟩ := search_eq_some t r hsearch
    rw [sepPattern_eq] at hb
    obtain ⟨a2, b2, rfl, -, hk, -⟩ := star_eq_some _ _ hb
    obtain ⟨rfl, -, -⟩ := sepTail_eq_some hk
    exact hno ⟨a ++ a2, r, by simp [hab]⟩

theorem trailingPattern_eq_some {b r : List Char} (h : trailingPattern b = some r) :
    ∃ w, b = r ++ w ∧ r ≠ [] ∧ (∀ c ∈ r, skuChar c = true) ∧ ∀ c ∈ w, isWhiteSpace c = true := by
  unfold trailingPattern at h
  obtain ⟨a, b', rfl, ha, hsku, hk⟩ := group_plus_eq_some h
  obtain ⟨w, b'', rfl, hw, hend, -⟩ := star_eq_some _ _ hk
  obtain ⟨rfl, rfl⟩ := endOfInput_eq_some hend
  exact ⟨w, by simp, ha, hsku, hw⟩

theorem trailingPattern_of {s : List Char} (hs : s ≠ []) (hsku : ∀ c ∈ s, skuChar c = true) :
    trailingPattern s = some s :=
  group_plus_all hs hsku rfl

/-! ## `trim` -/

theorem trimChars_getLast (s : List Char) (c : Char) (h : (trimChars s).getLast? = some c) :
    isWhiteSpace c = false := by
  unfold trimChars at h
  by_cases hnil : (s.dropWhile isWhiteSpace).rdropWhile isWhiteSpace = []
  · rw [hnil] at h; simp at h
  · have hnot := List.rdropWhile_last_not isWhiteSpace (s.dropWhile isWhiteSpace) hnil
    rw [List.getLast?_eq_getLast _ hnil] at h
    simp only [Option.some.injEq] at h
    rw [h] at hnot
    simpa using hnot

theorem trimChars_eq_nil {s : List Char} (h : trimChars s = []) :
    ∀ c ∈ s, isWhiteSpace c = true := by
  unfold trimChars at h
  have hdrop := List.rdropWhile_eq_nil_iff.mp h
  intro c hc
  rw [← List.takeWhile_append_dropWhile isWhiteSpace s] at hc
  rcases List.mem_append.mp hc with h1 | h1
  · exact List.mem_takeWhile_imp h1
  · exact hdrop c h1

theorem textOrEmpty_getLast (el : Option String) (c : Char)
    (h : (textOrEmpty el).data.getLast? = some c) : isWhiteSpace c = false := by
  unfold textOrEmpty strOr at h
  cases el with
  | none => simp at h
  | some x =>
    simp only [Option.map_some'] at h
    by_cases hx : trim x = ""
    · rw [if_pos hx] at h; simp at h
    · rw [if_neg hx] at h
      exact trimChars_getLast x.data c h

/-- A text whose last character is not white space does not trim to the empty string. -/
theorem trimChars_ne_nil {s : List Char} {c : Char} (hlast : s.getLast? = some c)
    (hc : isWhiteSpace c = false) : trimChars s ≠ [] := by
  intro h
  have hmem : c ∈ s := List.mem_of_getLast?_eq_some hlast
  have := trimChars_eq_nil h c hmem
  rw [hc] at this
  exact absurd this (by simp)

theorem skuOfTitle_of_sep {t cap : List Char} (h : search sepPattern t = some cap)
    (hne : trimChars cap ≠ []) : skuOfTitle t = trimChars cap := by
  unfold skuOfTitle
  rw [h]
  simp only [Option.map_some']
  cases htc : trimChars cap with
  | nil => exact absurd htc hne
  | cons c cs => rfl

theorem skuOfTitle_of_no_sep {t : List Char} (h : search sepPattern t = none) :
    skuOfTitle t = (match search trailingPattern t with
      | some (c :: cs) => c :: cs
      | _ => []) := by
  unfold skuOfTitle
  rw [h]
  cases search trailingPattern t with
  | none => rfl
  | some r =>
    cases r with
    | nil => rfl
    | cons c cs => rfl

/-- No later occurrence of `" - "`, from a check on the text after the occurrence. -/
theorem last_occurrence_of_check (pre post : List Char) {t : List Char}
    (ht : t = pre ++ [' ', '-', ' '] ++ post)
    (hno : ¬ ([' ', '-', ' '] <:+: ['-', ' '] ++ post)) :
    ∀ pre' post', t = pre' ++ [' ', '-', ' '] ++ post' → pre'.length ≤ pre.length := by
  intro pre' post' ht'
  by_contra hlt
  have heq : pre ++ ([' ', '-', ' '] ++ post) = pre' ++ ([' ', '-', ' '] ++ post') := by
    rw [← List.append_assoc, ← List.append_assoc, ← ht, ← ht']
  rcases List.append_eq_append_iff.mp heq with ⟨d, hpre, hd⟩ | ⟨d, hpre, hd⟩
  · cases d with
    | nil => simp at hpre; subst hpre; exact hlt (le_refl _)
    | cons x d' =>
      simp only [List.cons_append, List.cons.injEq] at hd
      apply hno
      refine ⟨d', post', ?_⟩
      have h2 := hd.2
      simp only [List.nil_append] at h2
      simp [h2]
  · have := congrArg List.length hpre
    simp only [List.length_append] at this
    omega

/-- Rule (b) on character sequences. -/
theorem skuOfTitle_trailing {t : List Char}
    (htrim : ∀ c, t.getLast? = some c → isWhiteSpace c = false)
    (hno : ¬ ([' ', '-', ' '] <:+: t)) :
    skuOfTitle t <:+ t ∧ (∀ c ∈ skuOfTitle t, skuChar c = true) ∧
      ∀ s, s <:+ t → (∀ c ∈ s, skuChar c = true) → s.length ≤ (skuOfTitle t).length := by
  rw [skuOfTitle_of_no_sep (search_sepPattern_none hno)]
  cases hsearch : search trailingPattern t with
  | none =>
    refine ⟨List.nil_suffix, by simp, ?_⟩
    intro s hs hsku
    obtain ⟨a, rfl⟩ := hs
    cases s with
    | nil => simp
    | cons x xs =>
      have h1 := search_eq_none _ hsearch a (x :: xs) rfl
      rw [trailingPattern_of (by simp) hsku] at h1
      exact absurd h1 (by simp)
  | some r =>
    obtain ⟨a, b, hab, hb, hmin⟩ := search_eq_some t r hsearch
    obtain ⟨w, rfl, hr, hsku, hw⟩ := trailingPattern_eq_some hb
    have hwnil : w = [] := by
      rcases List.eq_nil_or_concat w with h | ⟨w', c, h⟩
      · exact h
      · exfalso
        have hlast : t.getLast? = some c := by
          rw [hab, h, List.concat_eq_append, ← List.append_assoc, ← List.append_assoc,
            List.getLast?_concat]
        have h1 := htrim c hlast
        have h2 := hw c (by rw [h]; simp)
        rw [h1] at h2
        exact absurd h2 (by simp)
    subst hwnil
    simp only [List.append_nil] at hab
    cases r with
    | nil => exact absurd rfl hr
    | cons c cs =>
      show (c :: cs) <:+ t ∧ (∀ d ∈ c :: cs, skuChar d = true) ∧
        ∀ s, s <:+ t → (∀ d ∈ s, skuChar d = true) → s.length ≤ (c :: cs).length
      refine ⟨⟨a, hab.symm⟩, hsku, ?_⟩
      intro s hs hssku
      obtain ⟨a', ha'⟩ := hs
      by_contra hlt
      have hlen : a'.length < a.length := by
        have h1 := congrArg List.length ha'
        have h2 := congrArg List.length hab
        simp only [List.length_append] at h1 h2
        omega
      have hsne : s ≠ [] := by
        intro h
        rw [h] at hlt
        simp at hlt
      have h3 := hmin a' s ha'.symm hlen
      rw [trailingPattern_of hsne hssku] at h3
      exact absurd h3 (by simp)

/-! ## The SKU rules -/

/-- C1, amended.  Rule (a): when the trimmed title contains `" - "` and the text after
its last occurrence has no line terminator, the extracted sku is that text, trimmed. -/
theorem sku_after_last_separator (page : ProductPage) (category brand : String)
    (pre post : List Char)
    (hsplit : (pageTitle page).data = pre ++ " - ".data ++ post)
    (hlast : ∀ pre' post', (pageTitle page).data = pre' ++ " - ".data ++ post' →
      pre'.length ≤ pre.length)
    (hline : ∀ c ∈ post, isLineTerminator c = false) :
    (evaluateProduct page category brand).sku = ⟨trimChars post⟩ := by
  have hsep : " - ".data = [' ', '-', ' '] := rfl
  rw [hsep] at hsplit hlast
  have htrim := textOrEmpty_getLast page.h1
  have hpost : post ≠ [] := by
    intro h
    have hl : (pageTitle page).data.getLast? = some ' ' := by
      rw [hsplit, h]
      have : pre ++ [' ', '-', ' '] ++ [] = (pre ++ [' ', '-']) ++ [' '] := by simp
      rw [this, List.getLast?_concat]
    have := htrim ' ' hl
    exact absurd this (by decide)
  have hdot : ∀ c ∈ post, dot c = true := by
    intro c hc
    simp [dot, hline c hc]
  have hsearch := search_sepPattern hsplit hlast hpost hdot
  obtain ⟨c, hc⟩ : ∃ c, post.getLast? = some c := by
    rcases List.eq_nil_or_concat post with h | ⟨w, c, h⟩
    · exact absurd h hpost
    · exact ⟨c, by rw [h, List.concat_eq_append, List.getLast?_concat]⟩
  have hl : (pageTitle page).data.getLast? = some c := by
    rw [hsplit, List.getLast?_append, hc]
    rfl
  have hne := trimChars_ne_nil hc (htrim c hl)
  show (⟨skuOfTitle (pageTitle page).data⟩ : String) = ⟨trimChars post⟩
  rw [skuOfTitle_of_sep hsearch hne]

/-- The title of the specification: `"Oak Dresser - Martin Furniture MF-1234"` gives the
sku `"Martin Furniture MF-1234"`. -/
theorem sku_after_last_separator_witness :
    (evaluateProduct (headingOnly "Oak Dresser - Martin Furniture MF-1234")
      "Dressers" "Martin Furniture").sku = "Martin Furniture MF-1234" :=
  (sku_after_last_separator (headingOnly "Oak Dresser - Martin Furniture MF-1234")
    "Dressers" "Martin Furniture" "Oak Dresser".data "Martin Furniture MF-1234".data
    (by decide)
    (last_occurrence_of_check "Oak Dresser".data "Martin Furniture MF-1234".data (by decide) (by decide))
    (by decide)).trans (by decide)

/-- C1 as written fails: in the title `"Oak Dresser - Martin Furniture\nMF-1234"` the text
after the last `" - "` is `"Martin Furniture\nMF-1234"`, and the extracted sku is `"MF-1234"`. -/
theorem sku_after_last_separator_counterexample :
    (pageTitle (headingOnly "Oak Dresser - Martin Furniture\nMF-1234")).data
        = "Oak Dresser".data ++ " - ".data ++ "Martin Furniture\nMF-1234".data ∧
      (∀ pre' post', (pageTitle (headingOnly "Oak Dresser - Martin Furniture\nMF-1234")).data
        = pre' ++ " - ".data ++ post' → pre'.length ≤ "Oak Dresser".data.length) ∧
      (evaluateProduct (headingOnly "Oak Dresser - Martin Furniture\nMF-1234")
        "Dressers" "Martin Furniture").sku = "MF-1234" ∧
      (evaluateProduct (headingOnly "Oak Dresser - Martin Furniture\nMF-1234")
        "Dressers" "Martin Furniture").sku ≠ ⟨trimChars "Martin Furniture\nMF-1234".data⟩ :=
  ⟨by decide,
    last_occurrence_of_check "Oak Dresser".data "Martin Furniture\nMF-1234".data (by decide) (by decide),
    by decide, by decide⟩

/-- C2.  Rule (b): when the trimmed title does not contain `" - "`, the extracted sku is
the longest suffix of the title made of characters of `[A-Z0-9-]` only: it is such a
suffix, and no such suffix is longer.  So a title that is empty, or that ends in a
character outside `[A-Z0-9-]`, gives the empty sku. -/
theorem sku_trailing_run (page : ProductPage) (category brand : String)
    (hno : ¬ (" - ".data <:+: (pageTitle page).data)) :
    (evaluateProduct page category brand).sku.data <:+ (pageTitle page).data ∧
      (∀ c ∈ (evaluateProduct page category brand).sku.data, skuChar c = true) ∧
      (∀ s, s <:+ (pageTitle page).data → (∀ c ∈ s, skuChar c = true) →
        s.length ≤ (evaluateProduct page category brand).sku.data.length) ∧
      ((pageTitle page).data = [] → (evaluateProduct page category brand).sku = "") ∧
      (∀ c, (pageTitle page).data.getLast? = some c → skuChar c = false →
        (evaluateProduct page category brand).sku = "") := by
  have hspec : skuOfTitle (pageTitle page).data <:+ (pageTitle page).data ∧
      (∀ c ∈ skuOfTitle (pageTitle page).data, skuChar c = true) ∧
      ∀ s, s <:+ (pageTitle page).data → (∀ c ∈ s, skuChar c = true) →
        s.length ≤ (skuOfTitle (pageTitle page).data).length :=
    skuOfTitle_trailing (textOrEmpty_getLast page.h1) hno
  obtain ⟨hsuf, hall, hmax⟩ := hspec
  refine ⟨hsuf, hall, hmax, ?_, ?_⟩
  · intro ht
    apply String.ext
    show skuOfTitle (pageTitle page).data = []
    obtain ⟨a, ha⟩ := hsuf
    exact (List.append_eq_nil.mp (ha.trans ht)).2
  · intro c hc hsku
    apply String.ext
    show skuOfTitle (pageTitle page).data = []
    rcases List.eq_nil_or_concat (skuOfTitle (pageTitle page).data) with h | ⟨w, d, h⟩
    · exact h
    · exfalso
      obtain ⟨a, ha⟩ := hsuf
      have hlast : (pageTitle page).data.getLast? = some d := by
        rw [← ha, h, List.concat_eq_append, ← List.append_assoc, List.getLast?_concat]
      rw [hc] at hlast
      simp only [Option.some.injEq] at hlast
      have hd : skuChar d = true := hall d (by rw [h]; simp)
      rw [← hlast, hsku] at hd
      exact absurd hd (by simp)

/-- The title of the specification without separator: `"Accent Chair MF5678"` gives `"MF5678"`. -/
theorem sku_trailing_run_witness :
    (evaluateProduct (headingOnly "Accent Chair MF5678") "Chairs" "Martin Furniture").sku
        = "MF5678" ∧
      ∀ s, s <:+ (pageTitle (headingOnly "Accent Chair MF5678")).data →
        (∀ c ∈ s, skuChar c = true) → s.length ≤ 6 :=
  ⟨by decide,
    (sku_trailing_run (headingOnly "Accent Chair MF5678") "Chairs" "Martin Furniture"
      (by decide)).2.2.1⟩

/-! ## `scrapeProductDetails` -/

/-- C3.  `scrapeProductDetails` never raises: whatever the outcomes of the navigation,
the delay and the evaluation, it returns a record with the brand and category passed in,
and when one of the three fails the record has empty sku, price and comment. -/
theorem scrapeProductDetails_never_raises (v : ProductVisit) (url category brand : String) :
    (∃ r, scrapeProductDetails v url category brand = .ok r ∧
      r.brand = brand ∧ r.category = category) ∧
    (((∃ e, v.goto = .error e) ∨ (∃ e, v.delay = .error e) ∨ (∃ e, v.evaluate = .error e)) →
      ∃ r, scrapeProductDetails v url category brand = .ok r ∧
        r.sku = "" ∧ r.price = "" ∧ r.comment = "") := by
  obtain ⟨g, d, ev, pz⟩ := v
  cases g <;> cases d <;> cases ev <;>
    simp [scrapeProductDetails, scrapeProductDetailsTry, blankRecord, evaluateProduct]

/-- A failed navigation gives the blank record of the brand and category. -/
theorem scrapeProductDetails_never_raises_witness :
    ∃ r, scrapeProductDetails (visitGotoFails bothPrices) "https://www.afastores.com/p/1"
        "Chairs" "Martin Furniture" = .ok r ∧ r.sku = "" ∧ r.price = "" ∧ r.comment = "" :=
  (scrapeProductDetails_never_raises (visitGotoFails bothPrices)
    "https://www.afastores.com/p/1" "Chairs" "Martin Furniture").2 (Or.inl ⟨.goto, rfl⟩)

/-- C7, amended.  When the structured price element is present and its trimmed text is
not empty, the extracted price is that trimmed text, whatever the price-styled elements. -/
theorem price_structured_first (page : ProductPage) (category brand text : String)
    (hel : page.structuredPrice = some text) (hne : trim text ≠ "") :
    (evaluateProduct page category brand).price = trim text := by
  have hp : priceEl page = trim text := by
    simp [priceEl, textOrEmpty, strOr, hel, hne]
  show pagePrice page = trim text
  unfold pagePrice
  rw [hp, if_neg hne]

/-- A structured price `" $99.00 "` next to two price-styled elements gives `"$99.00"`. -/
theorem price_structured_first_witness :
    (evaluateProduct bothPrices "Chairs" "Martin Furniture").price = "$99.00" :=
  (price_structured_first bothPrices "Chairs" "Martin Furniture" " $99.00 " rfl
    (by decide)).trans (by decide)

/-- C7 as written fails: with a structured price element whose text is empty and a
price-styled element showing `"Sale $129.00"`, both are present and the extracted price
is the price-styled text, not the structured element's. -/
theorem price_structured_first_counterexample :
    emptyStructuredPrice.structuredPrice = some "" ∧
      emptyStructuredPrice.priceStyled ≠ [] ∧
      (evaluateProduct emptyStructuredPrice "Chairs" "Martin Furniture").price
        = "Sale $129.00" ∧
      (evaluateProduct emptyStructuredPrice "Chairs" "Martin Furniture").price ≠ "" ∧
      (evaluateProduct emptyStructuredPrice "Chairs" "Martin Furniture").price ≠ trim "" := by
  decide

/-! ## Product links of a listing page -/

theorem arrayFromSet_concat (xs : List String) (x : String) :
    arrayFromSet (xs ++ [x]) = setAdd (arrayFromSet xs) x := by
  simp [arrayFromSet, List.foldl_append]

theorem mem_arrayFromSet (xs : List String) (u : String) : u ∈ arrayFromSet xs ↔ u ∈ xs := by
  induction xs using List.reverseRecOn with
  | nil => simp [arrayFromSet]
  | append_singleton l x ih =>
    rw [arrayFromSet_concat, setAdd]
    by_cases h : x ∈ arrayFromSet l
    · rw [if_pos h, ih, List.mem_append, List.mem_singleton]
      constructor
      · exact Or.inl
      · rintro (hu | hu)
        · exact hu
        · subst hu; exact ih.mp h
    · rw [if_neg h, List.mem_append, List.mem_append, ih]

theorem nodup_arrayFromSet (xs : List String) : (arrayFromSet xs).Nodup := by
  induction xs using List.reverseRecOn with
  | nil => simp [arrayFromSet]
  | append_singleton l x ih =>
    rw [arrayFromSet_concat, setAdd]
    by_cases h : x ∈ arrayFromSet l
    · rw [if_pos h]; exact ih
    · rw [if_neg h]
      exact List.Nodup.append ih (List.nodup_singleton _) (by simpa using h)

theorem pairwise_arrayFromSet (xs : List String) :
    (arrayFromSet xs).Pairwise (fun a b => xs.indexOf a < xs.indexOf b) := by
  induction xs using List.reverseRecOn with
  | nil => simp [arrayFromSet]
  | append_singleton l x ih =>
    have hold : (arrayFromSet l).Pairwise
        (fun a b => (l ++ [x]).indexOf a < (l ++ [x]).indexOf b) := by
      refine List.Pairwise.imp_of_mem ?_ ih
      intro a b ha hb hab
      rw [List.indexOf_append_of_mem ((mem_arrayFromSet l a).mp ha),
        List.indexOf_append_of_mem ((mem_arrayFromSet l b).mp hb)]
      exact hab
    rw [arrayFromSet_concat, setAdd]
    by_cases h : x ∈ arrayFromSet l
    · rw [if_pos h]; exact hold
    · rw [if_neg h, List.pairwise_append]
      refine ⟨hold, List.pairwise_singleton _ _, ?_⟩
      intro a ha b hb
      rw [List.mem_singleton] at hb
      subst hb
      have hal : a ∈ l := (mem_arrayFromSet l a).mp ha
      have hbl : b ∉ l := fun hh => h ((mem_arrayFromSet l b).mpr hh)
      rw [List.indexOf_append_of_mem hal, List.indexOf_append_of_not_mem hbl]
      have := List.indexOf_lt_length.mpr hal
      omega

/-! ## Regrouping: `saveCurrentDataToExcel` -/

theorem groupRecords_concat {α : Type} (row : ProductRecord → α) (all : List ProductRecord)
    (r : ProductRecord) :
    groupRecords row (all ++ [r]) = pushRow (groupRecords row all) (groupKey r) (row r) := by
  simp [groupRecords, List.foldl_append]

theorem any_key_iff {α : Type} (g : Groups α) (k : String) :
    g.any (fun e => decide (e.1 = k)) = true ↔ k ∈ keysOf g := by
  simp only [keysOf, List.any_eq_true, decide_eq_true_eq, List.mem_map]

theorem rowsFor_cons_eq {α : Type} (e : String × List α) (g : Groups α) (k : String) (h : e.1 = k) :
    rowsFor (e :: g) k = e.2 := by
  simp [rowsFor, List.find?_cons, h]

theorem rowsFor_cons_ne {α : Type} (e : String × List α) (g : Groups α) (k : String) (h : ¬ (e.1 = k)) :
    rowsFor (e :: g) k = rowsFor g k := by
  simp [rowsFor, List.find?_cons, h]

theorem keysOf_cons {α : Type} (e : String × List α) (g : Groups α) : keysOf (e :: g) = e.1 :: keysOf g :=
  rfl

theorem keysOf_map_push {α : Type} (g : Groups α) (k : String) (row : α) :
    keysOf (g.map (fun e => if e.1 = k then (e.1, e.2 ++ [row]) else e)) = keysOf g := by
  induction g with
  | nil => rfl
  | cons e g ih =>
    rw [List.map_cons, keysOf_cons, keysOf_cons, ih]
    by_cases h : e.1 = k
    · rw [if_pos h]
    · rw [if_neg h]

theorem keysOf_pushRow {α : Type} (g : Groups α) (k : String) (row : α) :
    keysOf (pushRow g k row) = if k ∈ keysOf g then keysOf g else keysOf g ++ [k] := by
  unfold pushRow
  by_cases h : k ∈ keysOf g
  · rw [if_pos ((any_key_iff g k).mpr h), if_pos h, keysOf_map_push]
  · have h' : ¬ (g.any (fun e => decide (e.1 = k)) = true) := fun hh => h ((any_key_iff g k).mp hh)
    rw [if_neg h', if_neg h]
    simp [keysOf]

theorem rowsFor_of_not_mem {α : Type} (g : Groups α) (k : String) (h : k ∉ keysOf g) : rowsFor g k = [] := by
  induction g with
  | nil => rfl
  | cons e g ih =>
    rw [keysOf_cons, List.mem_cons, not_or] at h
    rw [rowsFor_cons_ne e g k (fun hh => h.1 hh.symm)]
    exact ih h.2

theorem map_push_of_not_mem {α : Type} (g : Groups α) (k : String) (row : α) (h : k ∉ keysOf g) :
    g.map (fun e => if e.1 = k then (e.1, e.2 ++ [row]) else e) = g := by
  induction g with
  | nil => rfl
  | cons e g ih =>
    rw [keysOf_cons, List.mem_cons, not_or] at h
    have hne : ¬ (e.1 = k) := fun hh => h.1 hh.symm
    rw [List.map_cons, if_neg hne, ih h.2]

theorem rowsFor_map_push {α : Type} (g : Groups α) (k k' : String) (row : α) (hk : k ∈ keysOf g) :
    rowsFor (g.map (fun e => if e.1 = k then (e.1, e.2 ++ [row]) else e)) k' =
      if k' = k then rowsFor g k ++ [row] else rowsFor g k' := by
  induction g with
  | nil => simp [keysOf] at hk
  | cons e g ih =>
    rw [List.map_cons]
    by_cases hek : e.1 = k
    · rw [if_pos hek]
      by_cases hkk : k' = k
      · rw [if_pos hkk, rowsFor_cons_eq (e.1, e.2 ++ [row]) _ _ (hek.trans hkk.symm),
          rowsFor_cons_eq e _ _ hek]
      · have hne : ¬ (e.1 = k') := fun hh => hkk (hh.symm.trans hek)
        rw [if_neg hkk, rowsFor_cons_ne (e.1, e.2 ++ [row]) _ _ hne, rowsFor_cons_ne e _ _ hne]
        by_cases hmem : k ∈ keysOf g
        · have ih' := ih hmem
          rw [if_neg hkk] at ih'
          exact ih'
        · rw [map_push_of_not_mem g k row hmem]
    · have hmem : k ∈ keysOf g := by
        rw [keysOf_cons, List.mem_cons] at hk
        rcases hk with h | h
        · exact absurd h.symm hek
        · exact h
      have ih' := ih hmem
      rw [if_neg hek, rowsFor_cons_ne _ _ _ hek]
      by_cases hek' : e.1 = k'
      · have hkk : ¬ (k' = k) := fun hh => hek (hek'.trans hh)
        rw [if_neg hkk, rowsFor_cons_eq _ _ _ hek', rowsFor_cons_eq _ _ _ hek']
      · rw [rowsFor_cons_ne _ _ _ hek', rowsFor_cons_ne _ _ _ hek']
        exact ih'

theorem rowsFor_append_new {α : Type} (g : Groups α) (k k' : String) (row : α) (hk : k ∉ keysOf g) :
    rowsFor (g ++ [(k, [row])]) k' = if k' = k then rowsFor g k ++ [row] else rowsFor g k' := by
  induction g with
  | nil =>
    by_cases hkk : k' = k
    · subst hkk; simp [rowsFor]
    · have : ¬ (k = k') := fun hh => hkk hh.symm
      simp [rowsFor, hkk, this]
  | cons e g ih =>
    rw [keysOf_cons, List.mem_cons, not_or] at hk
    have hek : ¬ (e.1 = k) := fun hh => hk.1 hh.symm
    have ih' := ih hk.2
    rw [List.cons_append, rowsFor_cons_ne _ _ _ hek]
    by_cases hek' : e.1 = k'
    · have hkk : ¬ (k' = k) := fun hh => hek (hek'.trans hh)
      rw [if_neg hkk, rowsFor_cons_eq _ _ _ hek', rowsFor_cons_eq _ _ _ hek']
    · rw [rowsFor_cons_ne _ _ _ hek', rowsFor_cons_ne _ _ _ hek']
      exact ih'

theorem rowsFor_pushRow {α : Type} (g : Groups α) (k k' : String) (row : α) :
    rowsFor (pushRow g k row) k' = if k' = k then rowsFor g k ++ [row] else rowsFor g k' := by
  unfold pushRow
  by_cases h : k ∈ keysOf g
  · rw [if_pos ((any_key_iff g k).mpr h)]
    exact rowsFor_map_push g k k' row h
  · have h' : ¬ (g.any (fun e => decide (e.1 = k)) = true) := fun hh => h ((any_key_iff g k).mp hh)
    rw [if_neg h']
    exact rowsFor_append_new g k k' row h

theorem totalRows_cons {α : Type} (e : String × List α) (g : Groups α) :
    totalRows (e :: g) = e.2.length + totalRows g := by
  simp [totalRows]

theorem totalRows_map_push {α : Type} (g : Groups α) (k : String) (row : α) (hk : k ∈ keysOf g)
    (hnd : (keysOf g).Nodup) :
    totalRows (g.map (fun e => if e.1 = k then (e.1, e.2 ++ [row]) else e)) = totalRows g + 1 := by
  induction g with
  | nil => simp [keysOf] at hk
  | cons e g ih =>
    rw [keysOf_cons, List.nodup_cons] at hnd
    rw [List.map_cons, totalRows_cons, totalRows_cons]
    by_cases hek : e.1 = k
    · have hmem : k ∉ keysOf g := fun hh => hnd.1 (hek ▸ hh)
      rw [if_pos hek, map_push_of_not_mem g k row hmem]
      simp only [List.length_append, List.length_singleton]
      omega
    · have hmem : k ∈ keysOf g := by
        rw [keysOf_cons, List.mem_cons] at hk
        rcases hk with h | h
        · exact absurd h.symm hek
        · exact h
      rw [if_neg hek, ih hmem hnd.2]
      omega

theorem totalRows_pushRow {α : Type} (g : Groups α) (k : String) (row : α) (hnd : (keysOf g).Nodup) :
    totalRows (pushRow g k row) = totalRows g + 1 := by
  unfold pushRow
  by_cases h : k ∈ keysOf g
  · rw [if_pos ((any_key_iff g k).mpr h)]
    exact totalRows_map_push g k row h hnd
  · have h' : ¬ (g.any (fun e => decide (e.1 = k)) = true) := fun hh => h ((any_key_iff g k).mp hh)
    rw [if_neg h']
    simp [totalRows]

theorem keysOf_groupRecords_nodup {α : Type} (row : ProductRecord → α) (all : List ProductRecord) :
    (keysOf (groupRecords row all)).Nodup := by
  induction all using List.reverseRecOn with
  | nil => simp [groupRecords, keysOf]
  | append_singleton l r ih =>
    rw [groupRecords_concat, keysOf_pushRow]
    by_cases h : groupKey r ∈ keysOf (groupRecords row l)
    · rw [if_pos h]; exact ih
    · rw [if_neg h]
      exact List.Nodup.append ih (List.nodup_singleton _) (by simpa using h)

theorem mem_keysOf_groupRecords {α : Type} (row : ProductRecord → α)
    (all : List ProductRecord) (k : String) :
    k ∈ keysOf (groupRecords row all) ↔ ∃ r ∈ all, groupKey r = k := by
  induction all using List.reverseRecOn with
  | nil => simp [groupRecords, keysOf]
  | append_singleton l r ih =>
    rw [groupRecords_concat, keysOf_pushRow]
    by_cases h : groupKey r ∈ keysOf (groupRecords row l)
    · rw [if_pos h, ih]
      constructor
      · rintro ⟨x, hx, hk⟩
        exact ⟨x, List.mem_append_left _ hx, hk⟩
      · rintro ⟨x, hx, hk⟩
        rcases List.mem_append.mp hx with hx | hx
        · exact ⟨x, hx, hk⟩
        · rw [List.mem_singleton] at hx
          subst hx
          exact ih.mp (hk ▸ h)
    · rw [if_neg h, List.mem_append, ih, List.mem_singleton]
      constructor
      · rintro (⟨x, hx, hk⟩ | hk)
        · exact ⟨x, List.mem_append_left _ hx, hk⟩
        · exact ⟨r, by simp, hk.symm⟩
      · rintro ⟨x, hx, hk⟩
        rcases List.mem_append.mp hx with hx | hx
        · exact Or.inl ⟨x, hx, hk⟩
        · rw [List.mem_singleton] at hx
          subst hx
          exact Or.inr hk.symm

theorem rowsFor_groupRecords {α : Type} (row : ProductRecord → α) (all : List ProductRecord)
    (k : String) :
    rowsFor (groupRecords row all) k = (all.filter (fun r => groupKey r = k)).map row := by
  induction all using List.reverseRecOn with
  | nil => rfl
  | append_singleton l r ih =>
    rw [groupRecords_concat, rowsFor_pushRow, List.filter_append, List.map_append]
    by_cases hk : k = groupKey r
    · subst hk
      rw [if_pos rfl, ih]
      simp
    · have hk' : ¬ (groupKey r = k) := fun hh => hk hh.symm
      rw [if_neg hk, ih]
      simp [hk']

theorem totalRows_groupRecords {α : Type} (row : ProductRecord → α) (all : List ProductRecord) :
    totalRows (groupRecords row all) = all.length := by
  induction all using List.reverseRecOn with
  | nil => rfl
  | append_singleton l r ih =>
    rw [groupRecords_concat, totalRows_pushRow _ _ _ (keysOf_groupRecords_nodup row l), ih]
    simp

theorem keysOf_groupRecords {α : Type} (row : ProductRecord → α) (all : List ProductRecord) :
    keysOf (groupRecords row all) = arrayFromSet (all.map groupKey) := by
  induction all using List.reverseRecOn with
  | nil => rfl
  | append_singleton l r ih =>
    rw [groupRecords_concat, keysOf_pushRow, List.map_append, List.map_singleton,
      arrayFromSet_concat, ih]
    rfl

theorem entries_eq {α : Type} (g : Groups α) (hnd : (keysOf g).Nodup) :
    g = (keysOf g).map (fun k => (k, rowsFor g k)) := by
  induction g with
  | nil => rfl
  | cons e g ih =>
    rw [keysOf_cons, List.nodup_cons] at hnd
    rw [keysOf_cons, List.map_cons, rowsFor_cons_eq e g e.1 rfl]
    congr 1
    have hg := ih hnd.2
    have hmap : (keysOf g).map (fun k => (k, rowsFor (e :: g) k))
        = (keysOf g).map (fun k => (k, rowsFor g k)) := by
      apply List.map_congr_left
      intro k hk
      have hne : ¬ (e.1 = k) := fun hh => hnd.1 (hh ▸ hk)
      rw [rowsFor_cons_ne e g k hne]
    rw [hmap]
    exact hg

/-- The object built by the `forEach`: one entry for each key, in order of first
appearance, holding what was pushed for the records of that key, in order. -/
theorem groupRecords_eq {α : Type} (row : ProductRecord → α) (all : List ProductRecord) :
    groupRecords row all = (arrayFromSet (all.map groupKey)).map
      (fun k => (k, (all.filter (fun r => groupKey r = k)).map row)) := by
  have h := entries_eq (groupRecords row all) (keysOf_groupRecords_nodup row all)
  rw [keysOf_groupRecords] at h
  rw [h]
  apply List.map_congr_left
  intro k _
  rw [rowsFor_groupRecords]

/-- C6.  Regrouping: for every key `"<brand> - <category>"` the rows built are the records
of the ResultSet with that key, each mapped to (SKU = sku, Selling Price = price,
Comment = comment), in append order; `groupedData` has one entry for each key that occurs,
in order of first appearance; the groups hold as many rows as the ResultSet has records. -/
theorem regroup_rows (allProducts : List ProductRecord) :
    (∀ key, rowsFor (groupData allProducts) key
        = (allProducts.filter (fun r => r.brand ++ " - " ++ r.category = key)).map
            (fun r => ({ SKU := r.sku, sellingPrice := r.price, Comment := r.comment } : Row))) ∧
      (∃ keys : List String, keys.Nodup ∧
        (∀ key, key ∈ keys ↔ ∃ r ∈ allProducts, r.brand ++ " - " ++ r.category = key) ∧
        keys.Pairwise (fun a b =>
          (allProducts.map (fun r => r.brand ++ " - " ++ r.category)).indexOf a
            < (allProducts.map (fun r => r.brand ++ " - " ++ r.category)).indexOf b) ∧
        groupData allProducts = keys.map (fun key =>
          (key, (allProducts.filter (fun r => r.brand ++ " - " ++ r.category = key)).map
            (fun r => ({ SKU := r.sku, sellingPrice := r.price, Comment := r.comment } : Row))))) ∧
      ((groupData allProducts).map (fun e => e.2.length)).sum = allProducts.length := by
  refine ⟨rowsFor_groupRecords toRow allProducts, ?_, totalRows_groupRecords toRow allProducts⟩
  refine ⟨arrayFromSet (allProducts.map groupKey), nodup_arrayFromSet _, ?_,
    pairwise_arrayFromSet (allProducts.map groupKey), groupRecords_eq toRow allProducts⟩
  intro key
  rw [mem_arrayFromSet, List.mem_map]
  rfl

/-- Records of `"Office - Desks"` appended before and after one of `"Desks"`: the rows of the
first key are those two records, in order. -/
theorem regroup_rows_witness :
    rowsFor (groupData [officeDesk, plainDesk, officeHutch]) "Martin Furniture - Office - Desks"
      = [{ SKU := "MF-1234", sellingPrice := "$99.00", Comment := "" },
         { SKU := "MF-77", sellingPrice := "$450.00", Comment := "Free shipping" }] :=
  ((regroup_rows [officeDesk, plainDesk, officeHutch]).1
    "Martin Furniture - Office - Desks").trans (by decide)

theorem groupKey_data (r : ProductRecord) :
    (groupKey r).data = r.brand.data ++ ([' ', '-', ' '] ++ r.category.data) := by
  simp [groupKey, String.data_append]

theorem category_eq_of_key (r1 r2 : ProductRecord) (hk : groupKey r1 = groupKey r2)
    (hb : r1.brand = r2.brand) : r1.category = r2.category := by
  have h := congrArg String.data hk
  rw [groupKey_data, groupKey_data, hb] at h
  exact String.ext (List.append_cancel_left (List.append_cancel_left h))

theorem brand_eq_of_key_of_no_hyphen (r1 r2 : ProductRecord) (hk : groupKey r1 = groupKey r2)
    (h1 : '-' ∉ r1.brand.data) (h2 : '-' ∉ r2.brand.data) : r1.brand = r2.brand := by
  have h := congrArg String.data hk
  rw [groupKey_data, groupKey_data] at h
  apply String.ext
  rcases List.append_eq_append_iff.mp h with ⟨d, hd, hrest⟩ | ⟨d, hd, hrest⟩
  · cases d with
    | nil => simpa using hd.symm
    | cons x d' =>
      exfalso
      simp only [List.cons_append, List.cons.injEq] at hrest
      obtain ⟨-, hrest⟩ := hrest
      cases d' with
      | nil =>
        simp only [List.nil_append, List.cons.injEq] at hrest
        exact absurd hrest.1 (by decide)
      | cons y d'' =>
        simp only [List.cons_append, List.cons.injEq] at hrest
        apply h2
        rw [hd, ← hrest.1]
        simp
  · cases d with
    | nil => simpa using hd
    | cons x d' =>
      exfalso
      simp only [List.cons_append, List.cons.injEq] at hrest
      obtain ⟨-, hrest⟩ := hrest
      cases d' with
      | nil =>
        simp only [List.nil_append, List.cons.injEq] at hrest
        exact absurd hrest.1 (by decide)
      | cons y d'' =>
        simp only [List.cons_append, List.cons.injEq] at hrest
        apply h1
        rw [hd, ← hrest.1]
        simp

theorem mem_placement_iff (allProducts : List ProductRecord) (e : String × List ProductRecord) :
    e ∈ placement allProducts ↔
      e.1 ∈ arrayFromSet (allProducts.map groupKey) ∧
        e.2 = allProducts.filter (fun r => groupKey r = e.1) := by
  unfold placement
  rw [groupRecords_eq, List.mem_map]
  constructor
  · rintro ⟨k, hk, rfl⟩
    exact ⟨hk, by simp⟩
  · rintro ⟨hk, he⟩
    refine ⟨e.1, hk, ?_⟩
    rw [List.map_id']
    exact Prod.ext rfl he.symm

theorem same_array_iff (allProducts : List ProductRecord) (r1 r2 : ProductRecord)
    (h1 : r1 ∈ allProducts) (h2 : r2 ∈ allProducts) :
    (∃ e ∈ placement allProducts, r1 ∈ e.2 ∧ r2 ∈ e.2) ↔ groupKey r1 = groupKey r2 := by
  constructor
  · rintro ⟨e, he, hr1, hr2⟩
    rw [mem_placement_iff] at he
    rw [he.2] at hr1 hr2
    simp only [List.mem_filter, decide_eq_true_eq] at hr1 hr2
    exact hr1.2.trans hr2.2.symm
  · intro hk
    refine ⟨(groupKey r1, allProducts.filter (fun r => groupKey r = groupKey r1)), ?_, ?_⟩
    · rw [mem_placement_iff]
      refine ⟨?_, rfl⟩
      rw [mem_arrayFromSet, List.mem_map]
      exact ⟨r1, h1, rfl⟩
    · simp only [List.mem_filter, decide_eq_true_eq]
      exact ⟨⟨h1, trivial⟩, ⟨h2, hk.symm⟩⟩

theorem array_unique (allProducts : List ProductRecord) (r : ProductRecord)
    (e e' : String × List ProductRecord) (he : e ∈ placement allProducts)
    (he' : e' ∈ placement allProducts) (hr : r ∈ e.2) (hr' : r ∈ e'.2) : e = e' := by
  rw [mem_placement_iff] at he he'
  rw [he.2] at hr
  rw [he'.2] at hr'
  simp only [List.mem_filter, decide_eq_true_eq] at hr hr'
  have hkey : e.1 = e'.1 := hr.2.symm.trans hr'.2
  refine Prod.ext hkey ?_
  rw [he.2, he'.2, hkey]

theorem groupData_eq_placement (allProducts : List ProductRecord) :
    groupData allProducts = (placement allProducts).map (fun e => (e.1, e.2.map toRow)) := by
  unfold groupData placement
  rw [groupRecords_eq, groupRecords_eq, List.map_map]
  apply List.map_congr_left
  intro k _
  simp

/-- C10, amended.  The rows of two records of the ResultSet are pushed to the same array of
`groupedData` exactly when their keys `"<brand> - <category>"` are the same string.  Records
with the same brand and category share a group; records that share a group have the same
category when their brands are equal, and the same brand and category when no hyphen
occurs in their brands.  (`placement` is `groupedData` with every row tagged by its record,
and no record is in two of its arrays.) -/
theorem same_group_iff_same_key (allProducts : List ProductRecord) (r1 r2 : ProductRecord)
    (h1 : r1 ∈ allProducts) (h2 : r2 ∈ allProducts) :
    groupData allProducts = (placement allProducts).map (fun e => (e.1, e.2.map
        (fun r => ({ SKU := r.sku, sellingPrice := r.price, Comment := r.comment } : Row)))) ∧
      (∀ e ∈ placement allProducts, ∀ e' ∈ placement allProducts,
        r1 ∈ e.2 → r1 ∈ e'.2 → e = e') ∧
      ((∃ e ∈ placement allProducts, r1 ∈ e.2 ∧ r2 ∈ e.2) ↔
        r1.brand ++ " - " ++ r1.category = r2.brand ++ " - " ++ r2.category) ∧
      (r1.brand = r2.brand ∧ r1.category = r2.category →
        ∃ e ∈ placement allProducts, r1 ∈ e.2 ∧ r2 ∈ e.2) ∧
      ((∃ e ∈ placement allProducts, r1 ∈ e.2 ∧ r2 ∈ e.2) →
        r1.brand = r2.brand → r1.category = r2.category) ∧
      ((∃ e ∈ placement allProducts, r1 ∈ e.2 ∧ r2 ∈ e.2) →
        '-' ∉ r1.brand.data → '-' ∉ r2.brand.data →
        r1.brand = r2.brand ∧ r1.category = r2.category) := by
  have hiff := same_array_iff allProducts r1 r2 h1 h2
  refine ⟨groupData_eq_placement allProducts, ?_, hiff, ?_, ?_, ?_⟩
  · intro e he e' he' hr hr'
    exact array_unique allProducts r1 e e' he he' hr hr'
  · rintro ⟨hb, hc⟩
    exact hiff.mpr (by simp [groupKey, hb, hc])
  · intro hg hb
    exact category_eq_of_key r1 r2 (hiff.mp hg) hb
  · intro hg hn1 hn2
    have hb := brand_eq_of_key_of_no_hyphen r1 r2 (hiff.mp hg) hn1 hn2
    exact ⟨hb, category_eq_of_key r1 r2 (hiff.mp hg) hb⟩

/-- Two records of one brand and category, appended before and after a record of another
category, are in one array; the record between them is in another. -/
theorem same_group_iff_same_key_witness :
    (∃ e ∈ placement [officeDesk, plainDesk, officeHutch], officeDesk ∈ e.2 ∧ officeHutch ∈ e.2) ∧
      ¬ (∃ e ∈ placement [officeDesk, plainDesk, officeHutch],
        officeDesk ∈ e.2 ∧ plainDesk ∈ e.2) :=
  ⟨(same_group_iff_same_key [officeDesk, plainDesk, officeHutch] officeDesk officeHutch
      (by decide) (by decide)).2.2.2.1 ⟨rfl, rfl⟩,
    fun h => absurd
      ((same_group_iff_same_key [officeDesk, plainDesk, officeHutch] officeDesk plainDesk
        (by decide) (by decide)).2.2.2.2.1 h rfl) (by decide)⟩

/-- C10 as written fails: the brand `"Martin Furniture"` with the category
`"Office - Desks"` and the brand `"Martin Furniture - Office"` with the category `"Desks"`
have the key `"Martin Furniture - Office - Desks"`, and their rows are pushed to one array. -/
theorem same_group_iff_same_key_counterexample :
    officeDesk ∈ [officeDesk, officeBrandDesk] ∧ officeBrandDesk ∈ [officeDesk, officeBrandDesk] ∧
      (∃ e ∈ placement [officeDesk, officeBrandDesk], officeDesk ∈ e.2 ∧ officeBrandDesk ∈ e.2) ∧
      groupData [officeDesk, officeBrandDesk]
        = [("Martin Furniture - Office - Desks",
            [{ SKU := "MF-1234", sellingPrice := "$99.00", Comment := "" },
             { SKU := "IMTE-5678", sellingPrice := "$120.00", Comment := "" }])] ∧
      ¬ (officeDesk.brand = officeBrandDesk.brand ∧
        officeDesk.category = officeBrandDesk.category) := by
  decide

/-! ## The loops of `scrapeCategory` -/

theorem scrapeProductDetails_ok (v : ProductVisit) (url category brand : String) :
    ∃ r, scrapeProductDetails v url category brand = .ok r ∧
      r.category = category ∧ r.brand = brand := by
  obtain ⟨g, d, ev, pz⟩ := v
  cases g <;> cases d <;> cases ev <;>
    simp [scrapeProductDetails, scrapeProductDetailsTry, blankRecord, evaluateProduct]

/-- The `for` loop calls `scrapeProductDetails` once for each link, in order, and appends
one record of the category and brand for each to `categoryProducts` and `allProducts`. -/
theorem scrapeProducts_spec (visits : Nat → ProductVisit) (category brand : String) :
    ∀ (links : List String) (i : Nat) (cp : List ProductRecord) (self : Scraper),
      ∃ new : List ProductRecord, new.length = links.length ∧
        (∀ r ∈ new, r.category = category ∧ r.brand = brand) ∧
        scrapeProducts visits category brand i links (cp, self) =
          (cp ++ new, { allProducts := self.allProducts ++ new,
                        requested := self.requested ++ links,
                        written := self.written }) := by
  intro links
  induction links with
  | nil =>
    intro i cp self
    exact ⟨[], rfl, by simp, by simp [scrapeProducts]⟩
  | cons u rest ih =>
    intro i cp self
    obtain ⟨r, hr, hcat, hbrand⟩ := scrapeProductDetails_ok (visits i) u category brand
    obtain ⟨new, hlen, hnew, hrun⟩ := ih (i + 1) (cp ++ [r])
      { allProducts := self.allProducts ++ [r], requested := self.requested ++ [u],
        written := self.written }
    refine ⟨r :: new, by simp [hlen], ?_, ?_⟩
    · intro x hx
      rcases List.mem_cons.mp hx with rfl | hx
      · exact ⟨hcat, hbrand⟩
      · exact hnew x hx
    · unfold scrapeProducts
      simp only [hr]
      cases (visits i).pause <;> simp [hrun]

theorem scrapePage_spec (p : ListingPage) (category brand : String)
    (cp : List ProductRecord) (self : Scraper) :
    ∃ new : List ProductRecord, (∀ r ∈ new, r.category = category ∧ r.brand = brand) ∧
      scrapePage p category brand (cp, self) =
        (pageContinues p, cp ++ new,
          { allProducts := self.allProducts ++ new,
            requested := self.requested ++ pageLinks p,
            written := self.written }) := by
  obtain ⟨w, an, vs, nb, cl, dl⟩ := p
  cases w with
  | error e => exact ⟨[], by simp, by simp [scrapePage, pageContinues, pageLinks]⟩
  | ok u =>
    cases an with
    | error e => exact ⟨[], by simp, by simp [scrapePage, pageContinues, pageLinks]⟩
    | ok anchors =>
      obtain ⟨new, -, hnew, hrun⟩ :=
        scrapeProducts_spec vs category brand (productLinks anchors) 0 cp self
      refine ⟨new, hnew, ?_⟩
      cases nb with
      | error e => simp [scrapePage, pageContinues, pageLinks, hrun]
      | ok btn =>
        cases cl <;> cases dl <;> cases hb : hasNext btn <;>
          simp [scrapePage, pageContinues, pageLinks, hrun, hb]

theorem paginate_spec (category brand : String) :
    ∀ (pages : List ListingPage) (cp : List ProductRecord) (self : Scraper),
      (paginationEnds pages = false ∧ paginate category brand pages (cp, self) = none) ∨
      (paginationEnds pages = true ∧
        ∃ (new : List ProductRecord) (reqs : List String),
          (∀ r ∈ new, r.category = category ∧ r.brand = brand) ∧
          paginate category brand pages (cp, self) =
            some (cp ++ new, { allProducts := self.allProducts ++ new,
                               requested := self.requested ++ reqs,
                               written := self.written })) := by
  intro pages
  induction pages with
  | nil => intro cp self; exact Or.inl ⟨rfl, rfl⟩
  | cons p ps ih =>
    intro cp self
    obtain ⟨new, hnew, hpage⟩ := scrapePage_spec p category brand cp self
    cases hc : pageContinues p with
    | false =>
      right
      refine ⟨by simp [paginationEnds, hc], new, pageLinks p, hnew, ?_⟩
      simp [paginate, hpage, hc]
    | true =>
      have hih := ih (cp ++ new)
        { allProducts := self.allProducts ++ new, requested := self.requested ++ pageLinks p,
          written := self.written }
      rcases hih with ⟨hends, hnone⟩ | ⟨hends, new2, reqs, hnew2, hsome⟩
      · left
        refine ⟨?_, ?_⟩
        · simpa [paginationEnds, hc] using hends
        · simp [paginate, hpage, hc, hnone]
      · right
        refine ⟨?_, new ++ new2, pageLinks p ++ reqs, ?_, ?_⟩
        · simpa [paginationEnds, hc] using hends
        · intro r hr
          rcases List.mem_append.mp hr with h | h
          · exact hnew r h
          · exact hnew2 r h
        · simp [paginate, hpage, hc, hsome]

/-! ## `scrapeCategory` -/

theorem appendSheets_spec (f : Nat → Except JsError Unit) :
    ∀ (g : Grouped) (i : Nat) (wb : Workbook),
      (∃ e j, appendSheets f i g wb = .error e ∧ f j = .error e) ∨
      appendSheets f i g wb = .ok (wb ++ g.map (fun e => (substring e.1 0 31, e.2))) := by
  intro g
  induction g with
  | nil => intro i wb; right; simp [appendSheets]
  | cons x g ih =>
    intro i wb
    obtain ⟨sheetName, rows⟩ := x
    cases hf : f i with
    | error e => left; exact ⟨e, i, by simp [appendSheets, hf], hf⟩
    | ok u =>
      rcases ih (i + 1) (wb ++ [(substring sheetName 0 31, rows)]) with ⟨e, j, he, hj⟩ | hok
      · left; exact ⟨e, j, by simp [appendSheets, hf, he], hj⟩
      · right; simp [appendSheets, hf, hok]

/-- What `saveCurrentDataToExcel` does: `allProducts` is left as it is; when it returns,
`XLSX.writeFile` was called last with one sheet for each entry of `groupedData`; it raises
only when a call into `XLSX` fails. -/
theorem saveCurrentDataToExcel_spec (xlsx : SaveRun) (self : Scraper) :
    ∃ out self', saveCurrentDataToExcel xlsx self = (out, self') ∧
      self'.allProducts = self.allProducts ∧
      ((out = .ok () ∧ self'.written.getLast? = some
          ((groupData self.allProducts).map (fun e => (substring e.1 0 31, e.2)), true)) ∨
        ((∃ e, out = .error e) ∧ ¬ SaveSucceeds xlsx)) := by
  unfold saveCurrentDataToExcel
  rcases appendSheets_spec xlsx.appendSheet (groupData self.allProducts) 0 [] with
    ⟨e, j, he, hj⟩ | hok
  · rw [he]
    refine ⟨.error e, self, rfl, rfl, Or.inr ⟨⟨e, rfl⟩, ?_⟩⟩
    intro hs
    rw [hs.1 j] at hj
    exact absurd hj (by simp)
  · rw [hok]
    cases hw : xlsx.writeFile with
    | ok u => exact ⟨.ok (), _, rfl, rfl, Or.inl ⟨rfl, by simp⟩⟩
    | error e =>
      refine ⟨.error e, _, rfl, rfl, Or.inr ⟨⟨e, rfl⟩, ?_⟩⟩
      intro hs
      rw [hs.2] at hw
      exact absurd hw (by simp)

/-- What a run of `scrapeCategory` leaves behind, when the script determines it. -/
theorem scrapeCategory_spec (run : CategoryRun) (category : Category) (brandName : String)
    (self : Scraper) :
    (completes run = false ∧ scrapeCategory run category brandName self = none) ∨
    (completes run = true ∧ ∃ out self' recs,
      scrapeCategory run category brandName self = some (out, self') ∧
      self'.allProducts = self.allProducts ++ recs ∧ recs ≠ [] ∧
      (∀ r ∈ recs, r.category = category.name ∧ r.brand = brandName) ∧
      ((out = .ok () ∧ self'.written.getLast? = some
          ((groupData self'.allProducts).map (fun e => (substring e.1 0 31, e.2)), true)) ∨
        ((∃ e, out = .error e) ∧ ¬ SaveSucceeds run.saveInCatch ∧
          ¬ (run.goto = .ok () ∧ run.delay = .ok () ∧ SaveSucceeds run.save)))) := by
  have hcatch : ∀ (s0 : Scraper) (recs0 : List ProductRecord),
      s0.allProducts = self.allProducts ++ recs0 →
      (∀ r ∈ recs0, r.category = category.name ∧ r.brand = brandName) →
      ¬ (run.goto = .ok () ∧ run.delay = .ok () ∧ SaveSucceeds run.save) →
      ∃ out self' recs,
        scrapeCategoryCatch run category brandName s0 = (out, self') ∧
        self'.allProducts = self.allProducts ++ recs ∧ recs ≠ [] ∧
        (∀ r ∈ recs, r.category = category.name ∧ r.brand = brandName) ∧
        ((out = .ok () ∧ self'.written.getLast? = some
            ((groupData self'.allProducts).map (fun e => (substring e.1 0 31, e.2)), true)) ∨
          ((∃ e, out = .error e) ∧ ¬ SaveSucceeds run.saveInCatch ∧
            ¬ (run.goto = .ok () ∧ run.delay = .ok () ∧ SaveSucceeds run.save))) := by
    intro s0 recs0 hs0 hrecs0 hnot
    obtain ⟨out, self', hsave, hall, hcase⟩ := saveCurrentDataToExcel_spec run.saveInCatch
      { s0 with allProducts := s0.allProducts ++ [blankRecord category.name brandName] }
    have hall' : self'.allProducts
        = self.allProducts ++ (recs0 ++ [blankRecord category.name brandName]) := by
      rw [hall]
      simp [hs0]
    refine ⟨out, self', recs0 ++ [blankRecord category.name brandName], hsave, hall', by simp,
      ?_, ?_⟩
    · intro r hr
      rcases List.mem_append.mp hr with h | h
      · exact hrecs0 r h
      · rw [List.mem_singleton] at h
        subst h
        exact ⟨rfl, rfl⟩
    · rcases hcase with ⟨hout, hlast⟩ | ⟨hout, hfail⟩
      · left
        refine ⟨hout, ?_⟩
        rw [hall]
        exact hlast
      · exact Or.inr ⟨hout, hfail, hnot⟩
  cases hgoto : run.goto with
  | error e =>
    right
    refine ⟨by simp [completes, hgoto], ?_⟩
    obtain ⟨out, self', recs, hrun, h⟩ := hcatch self [] (by simp) (by simp)
      (by rw [hgoto]; simp)
    rw [hgoto] at h
    exact ⟨out, self', recs, by simp [scrapeCategory, hgoto, hrun], h⟩
  | ok u =>
    cases hdelay : run.delay with
    | error e =>
      right
      refine ⟨by simp [completes, hgoto, hdelay], ?_⟩
      obtain ⟨out, self', recs, hrun, h⟩ := hcatch self [] (by simp) (by simp)
        (by rw [hdelay]; simp)
      rw [hgoto, hdelay] at h
      exact ⟨out, self', recs, by simp [scrapeCategory, hgoto, hdelay, hrun], h⟩
    | ok u' =>
      rcases paginate_spec category.name brandName run.pages [] self with
        ⟨hends, hnone⟩ | ⟨hends, new, reqs, hnew, hsome⟩
      · left
        exact ⟨by simp [completes, hgoto, hdelay, hends],
          by simp [scrapeCategory, hgoto, hdelay, hnone]⟩
      · right
        refine ⟨by simp [completes, hgoto, hdelay, hends], ?_⟩
        simp only [List.nil_append] at hsome
        -- the records of the category after lines 106-109
        have hpush : ∃ recs, recs ≠ [] ∧
            (∀ r ∈ recs, r.category = category.name ∧ r.brand = brandName) ∧
            pushPlaceholder category brandName
              (new, { allProducts := self.allProducts ++ new,
                      requested := self.requested ++ reqs, written := self.written }) =
              { allProducts := self.allProducts ++ recs,
                requested := self.requested ++ reqs, written := self.written } := by
          cases new with
          | nil =>
            exact ⟨[blankRecord category.name brandName], by simp,
              by simp [blankRecord], by simp [pushPlaceholder]⟩
          | cons x xs => exact ⟨x :: xs, by simp, hnew, by simp [pushPlaceholder]⟩
        obtain ⟨recs, hne, hrecs, hpushed⟩ := hpush
        obtain ⟨out, self1, hsave, hall, hcase⟩ := saveCurrentDataToExcel_spec run.save
          { allProducts := self.allProducts ++ recs,
            requested := self.requested ++ reqs, written := self.written }
        rcases hcase with ⟨hout, hlast⟩ | ⟨⟨e, hout⟩, hfail⟩
        · subst hout
          refine ⟨.ok (), self1, recs, ?_, hall, hne, hrecs, Or.inl ⟨rfl, ?_⟩⟩
          · simp [scrapeCategory, hgoto, hdelay, hsome, hpushed, hsave]
          · rw [hall]
            exact hlast
        · subst hout
          obtain ⟨out2, self', recs2, hrun, h⟩ := hcatch self1 recs hall hrecs
            (fun hh => hfail hh.2.2)
          rw [hgoto, hdelay] at h
          refine ⟨out2, self', recs2, ?_, h⟩
          simp [scrapeCategory, hgoto, hdelay, hsome, hpushed, hsave, hrun]

/-- C5.  On a listing page whose links were collected, the URLs handed to
`scrapeProductDetails` are those of the page without duplicates, in order of first
appearance, and `scrapeProductDetails` is called exactly once for each of them. -/
theorem product_links_deduplicated (p : ListingPage) (category brand : String)
    (categoryProducts : List ProductRecord) (self : Scraper) (anchors : List Anchor)
    (hwait : p.waitForSelector = .ok ()) (hanchors : p.anchors = .ok anchors) :
    (productLinks anchors).Nodup ∧
      (∀ u, u ∈ productLinks anchors ↔ u ∈ anchors.map resolveHref) ∧
      (productLinks anchors).Pairwise (fun a b =>
        (anchors.map resolveHref).indexOf a < (anchors.map resolveHref).indexOf b) ∧
      (scrapePage p category brand (categoryProducts, self)).2.2.requested
        = self.requested ++ productLinks anchors ∧
      (∀ u, (productLinks anchors).count u = if u ∈ anchors.map resolveHref then 1 else 0) := by
  have hnd := nodup_arrayFromSet (anchors.map resolveHref)
  have hmem := mem_arrayFromSet (anchors.map resolveHref)
  refine ⟨hnd, hmem, pairwise_arrayFromSet _, ?_, ?_⟩
  · obtain ⟨new, -, hpage⟩ := scrapePage_spec p category brand categoryProducts self
    rw [hpage]
    simp [pageLinks, hwait, hanchors]
  · intro u
    by_cases hu : u ∈ anchors.map resolveHref
    · rw [if_pos hu]
      exact List.count_eq_one_of_mem hnd ((hmem u).mpr hu)
    · rw [if_neg hu]
      exact List.count_eq_zero_of_not_mem (fun hh => hu ((hmem u).mp hh))

/-- Three links, the first and the third the same: two calls, in order of first appearance. -/
theorem product_links_deduplicated_witness :
    (scrapePage duplicateLinksPage "Chairs" "Martin Furniture" ([], newScraper)).2.2.requested
      = ["https://www.afastores.com/p/1", "https://www.afastores.com/p/2"] :=
  (product_links_deduplicated duplicateLinksPage "Chairs" "Martin Furniture" [] newScraper
    [⟨"https://www.afastores.com/p/1", some "/p/1"⟩, ⟨"/p/2", some "/p/2"⟩,
      ⟨"https://www.afastores.com/p/1", some "/p/1"⟩] rfl rfl).2.2.2.1.trans (by decide)

/-- C4.  No category is dropped: whenever the run of `scrapeCategory` comes to its end,
by returning or by raising, `allProducts` holds a record with the category's name and the
brand, whatever the ResultSet was before and whatever failed. -/
theorem category_never_dropped (run : CategoryRun) (category : Category) (brandName : String)
    (self : Scraper) (hends : completes run = true) :
    ∃ out self', scrapeCategory run category brandName self = some (out, self') ∧
      ∃ r ∈ self'.allProducts, r.category = category.name ∧ r.brand = brandName := by
  rcases scrapeCategory_spec run category brandName self with ⟨hc, -⟩ | ⟨-, h⟩
  · rw [hends] at hc; exact absurd hc (by simp)
  · obtain ⟨out, self', recs, hrun, hall, hne, hrecs, -⟩ := h
    refine ⟨out, self', hrun, ?_⟩
    cases recs with
    | nil => exact absurd rfl hne
    | cons r rs =>
      exact ⟨r, by rw [hall]; simp, hrecs r (List.mem_cons_self _ _)⟩

/-- The listing times out and the first write fails: the category is still in the output. -/
theorem category_never_dropped_witness :
    ∃ out self', scrapeCategory firstWriteFailsRun chairs "Martin Furniture" newScraper
        = some (out, self') ∧
      ∃ r ∈ self'.allProducts, r.category = "Chairs" ∧ r.brand = "Martin Furniture" :=
  category_never_dropped firstWriteFailsRun chairs "Martin Furniture" newScraper rfl

theorem sheets_eq (all : List ProductRecord) :
    (groupData all).map (fun e => (substring e.1 0 31, e.2))
      = (arrayFromSet (all.map groupKey)).map (fun k =>
          ((codeUnits k).take 31, (all.filter (fun r => groupKey r = k)).map toRow)) := by
  unfold groupData
  rw [groupRecords_eq, List.map_map]
  apply List.map_congr_left
  intro k _
  simp [substring]

/-- C8.  Persist after every category: on every run of `scrapeCategory` that returns, the
last workbook written holds exactly the groups and rows accumulated through that category:
one sheet for each key `"<brand> - <category>"` of the whole `allProducts` as it stands
when `scrapeCategory` returns (the ResultSet before the category followed by the records of
the category), in order of first appearance, named by the first 31 code units of the key,
with the records of that key as rows (SKU = sku, Selling Price = price, Comment = comment)
in append order; and that write has succeeded. -/
theorem snapshot_after_category (run : CategoryRun) (category : Category) (brandName : String)
    (self : Scraper) (hends : completes run = true) :
    ∃ out self' recs, scrapeCategory run category brandName self = some (out, self') ∧
      self'.allProducts = self.allProducts ++ recs ∧
      (∀ r ∈ recs, r.category = category.name ∧ r.brand = brandName) ∧
      (out = .ok () → ∃ keys : List String, keys.Nodup ∧
        (∀ key, key ∈ keys ↔ ∃ r ∈ self'.allProducts, r.brand ++ " - " ++ r.category = key) ∧
        keys.Pairwise (fun a b =>
          (self'.allProducts.map (fun r => r.brand ++ " - " ++ r.category)).indexOf a
            < (self'.allProducts.map (fun r => r.brand ++ " - " ++ r.category)).indexOf b) ∧
        self'.written.getLast? = some (keys.map (fun key =>
          ((codeUnits key).take 31,
            (self'.allProducts.filter (fun r => r.brand ++ " - " ++ r.category = key)).map
              (fun r => ({ SKU := r.sku, sellingPrice := r.price, Comment := r.comment } : Row)))),
          true)) := by
  rcases scrapeCategory_spec run category brandName self with ⟨hc, -⟩ | ⟨-, h⟩
  · rw [hends] at hc; exact absurd hc (by simp)
  · obtain ⟨out, self', recs, hrun, hall, -, hrecs, hcase⟩ := h
    refine ⟨out, self', recs, hrun, hall, hrecs, ?_⟩
    intro hout
    rcases hcase with ⟨-, hlast⟩ | ⟨⟨e, he⟩, -⟩
    · refine ⟨arrayFromSet (self'.allProducts.map groupKey), nodup_arrayFromSet _, ?_,
        pairwise_arrayFromSet (self'.allProducts.map groupKey), ?_⟩
      · intro key
        rw [mem_arrayFromSet, List.mem_map]
        rfl
      · rw [hlast, sheets_eq]
        rfl
    · rw [hout] at he; exact absurd he (by simp)

/-- A run over one listing page with two products, in a category whose key has a surrogate
pair at code units 31 and 32: the workbook written has one sheet, named by the first 31 code
units of the key, with the two rows. -/
theorem snapshot_after_category_witness :
    (∃ out self' recs,
      scrapeCategory onePageRun homeOffice "Martin Furniture" newScraper = some (out, self') ∧
      self'.allProducts = newScraper.allProducts ++ recs ∧
      (∀ r ∈ recs, r.category = homeOffice.name ∧ r.brand = "Martin Furniture") ∧
      (out = .ok () → ∃ keys : List String, keys.Nodup ∧
        (∀ key, key ∈ keys ↔ ∃ r ∈ self'.allProducts, r.brand ++ " - " ++ r.category = key) ∧
        keys.Pairwise (fun a b =>
          (self'.allProducts.map (fun r => r.brand ++ " - " ++ r.category)).indexOf a
            < (self'.allProducts.map (fun r => r.brand ++ " - " ++ r.category)).indexOf b) ∧
        self'.written.getLast? = some (keys.map (fun key =>
          ((codeUnits key).take 31,
            (self'.allProducts.filter (fun r => r.brand ++ " - " ++ r.category = key)).map
              (fun r => ({ SKU := r.sku, sellingPrice := r.price, Comment := r.comment } : Row)))),
          true))) ∧
      scrapeCategory onePageRun homeOffice "Martin Furniture" newScraper
        = some (.ok (),
            { allProducts :=
                [{ category := "Home Office🛋 Desks", brand := "Martin Furniture",
                   sku := "MF5678", price := "$99.00", comment := "" },
                 { category := "Home Office🛋 Desks", brand := "Martin Furniture",
                   sku := "MF5678", price := "$99.00", comment := "" }],
              requested := ["https://www.afastores.com/p/1", "https://www.afastores.com/p/2"],
              written :=
                [([(codeUnits "Martin Furniture - Home Office" ++ [0xD83D],
                    [{ SKU := "MF5678", sellingPrice := "$99.00", Comment := "" },
                     { SKU := "MF5678", sellingPrice := "$99.00", Comment := "" }])],
                  true)] }) :=
  ⟨snapshot_after_category onePageRun homeOffice "Martin Furniture" newScraper rfl, rfl⟩

/-! ## The categories of a brand -/

/-- When the save in the `catch` succeeds, or the `catch` is not reached, a run of
`scrapeCategory` that the script determines returns, with records of the category. -/
theorem scrapeCategory_ok (run : CategoryRun) (category : Category) (brandName : String)
    (self : Scraper)
    (hsave : SaveSucceeds run.saveInCatch ∨
      (run.goto = .ok () ∧ run.delay = .ok () ∧ SaveSucceeds run.save))
    (hends : completes run = true) :
    ∃ self' recs, scrapeCategory run category brandName self = some (.ok (), self') ∧
      self'.allProducts = self.allProducts ++ recs ∧ recs ≠ [] ∧
      ∀ r ∈ recs, r.category = category.name ∧ r.brand = brandName := by
  rcases scrapeCategory_spec run category brandName self with ⟨hc, -⟩ | ⟨-, h⟩
  · rw [hends] at hc; exact absurd hc (by simp)
  · obtain ⟨out, self', recs, hrun, hall, hne, hrecs, hcase⟩ := h
    rcases hcase with ⟨hout, -⟩ | ⟨-, hfail, hnot⟩
    · subst hout
      exact ⟨self', recs, hrun, hall, hne, hrecs⟩
    · rcases hsave with hs | hs
      · exact absurd hs hfail
      · exact absurd hs hnot

theorem scrapeCategory_no_raise (run : CategoryRun) (category : Category) (brandName : String)
    (self : Scraper)
    (hsave : SaveSucceeds run.saveInCatch ∨
      (run.goto = .ok () ∧ run.delay = .ok () ∧ SaveSucceeds run.save)) :
    ∀ e self', scrapeCategory run category brandName self ≠ some (.error e, self') := by
  intro e self2 hh
  rcases scrapeCategory_spec run category brandName self with ⟨-, hnone⟩ | ⟨hc, -⟩
  · rw [hnone] at hh
    exact absurd hh (by simp)
  · obtain ⟨self', recs, hrun, -⟩ := scrapeCategory_ok run category brandName self hsave hc
    rw [hrun] at hh
    simp at hh

/-- The `for` loop of lines 49-52 goes through all the categories when every
`scrapeCategory` returns. -/
theorem scrapeCategories_ok (runs : Nat → CategoryRun) (brandName : String) :
    ∀ (categories : List Category) (k : Nat) (self : Scraper),
      (∀ j, j < categories.length →
        (SaveSucceeds (runs (k + j)).saveInCatch ∨
          ((runs (k + j)).goto = .ok () ∧ (runs (k + j)).delay = .ok () ∧
            SaveSucceeds (runs (k + j)).save)) ∧
        completes (runs (k + j)) = true) →
      ∃ self' blocks, scrapeCategories runs brandName k categories self = some (.ok (), self') ∧
        self'.allProducts = self.allProducts ++ blocks.flatten ∧
        List.Forall₂ (fun (category : Category) (block : List ProductRecord) =>
          block ≠ [] ∧ ∀ r ∈ block, r.category = category.name ∧ r.brand = brandName)
          categories blocks := by
  intro categories
  induction categories with
  | nil =>
    intro k self _
    exact ⟨self, [], rfl, by simp, List.Forall₂.nil⟩
  | cons category rest ih =>
    intro k self h
    have h0 := h 0 (by simp)
    obtain ⟨self1, recs, hrun, hall, hne, hrecs⟩ :=
      scrapeCategory_ok (runs k) category brandName self h0.1 h0.2
    have hrest : ∀ j, j < rest.length →
        (SaveSucceeds (runs (k + 1 + j)).saveInCatch ∨
          ((runs (k + 1 + j)).goto = .ok () ∧ (runs (k + 1 + j)).delay = .ok () ∧
            SaveSucceeds (runs (k + 1 + j)).save)) ∧
        completes (runs (k + 1 + j)) = true := by
      intro j hj
      have := h (j + 1) (by simp; omega)
      have hidx : k + (j + 1) = k + 1 + j := by omega
      rw [hidx] at this
      exact this
    obtain ⟨self', blocks, hloop, hall', hblocks⟩ := ih (k + 1) self1 hrest
    refine ⟨self', recs :: blocks, ?_, ?_, List.Forall₂.cons ⟨hne, hrecs⟩ hblocks⟩
    · simp [scrapeCategories, hrun, delay, hloop]
    · rw [hall', hall]
      simp

/-- C9, amended.  Failure isolation at the category boundary: whatever the page-driver
operations do, when in each category the save in the `catch` of `scrapeCategory` succeeds
or the `catch` is not reached (the navigation, the delay and the save in the `try`
succeed), no `scrapeCategory` raises; and when the script shows the end of each pagination,
every `scrapeCategory` returns and the `for` loop of `scrapeBrandCategories` crawls all the
categories of the brand: each, in order, leaves its records in `allProducts`. -/
theorem scrapeCategory_returns (runs : Nat → CategoryRun) (brandName : String)
    (categories : List Category) (self : Scraper)
    (hsave : ∀ i, i < categories.length →
      SaveSucceeds (runs i).saveInCatch ∨
        ((runs i).goto = .ok () ∧ (runs i).delay = .ok () ∧ SaveSucceeds (runs i).save)) :
    (∀ i, i < categories.length → ∀ category s e s',
        scrapeCategory (runs i) category brandName s ≠ some (.error e, s')) ∧
      ((∀ i, i < categories.length → completes (runs i) = true) →
        (∀ i, i < categories.length → ∀ category s,
          ∃ s', scrapeCategory (runs i) category brandName s = some (.ok (), s')) ∧
        ∃ self' blocks,
          scrapeCategories runs brandName 0 categories self = some (.ok (), self') ∧
          self'.allProducts = self.allProducts ++ blocks.flatten ∧
          List.Forall₂ (fun (category : Category) (block : List ProductRecord) =>
            block ≠ [] ∧ ∀ r ∈ block, r.category = category.name ∧ r.brand = brandName)
            categories blocks ∧
          ∀ (run : BrandRun) (brandUrl : String) (anchors : List CategoryAnchor),
            run.runs = runs → run.goto = .ok () → run.waitForSelector = .ok () →
            run.anchors = .ok anchors → anchors.map categoryLink = categories →
            scrapeBrandCategories run brandUrl brandName self = some (.ok (), self')) := by
  refine ⟨?_, ?_⟩
  · intro i hi category s
    exact scrapeCategory_no_raise (runs i) category brandName s (hsave i hi)
  · intro hends
    refine ⟨?_, ?_⟩
    · intro i hi category s
      obtain ⟨s', -, hrun, -⟩ :=
        scrapeCategory_ok (runs i) category brandName s (hsave i hi) (hends i hi)
      exact ⟨s', hrun⟩
    · obtain ⟨self', blocks, hloop, hall, hblocks⟩ :=
        scrapeCategories_ok runs brandName categories 0 self (by
          intro j hj
          rw [Nat.zero_add]
          exact ⟨hsave j hj, hends j hj⟩)
      refine ⟨self', blocks, hloop, hall, hblocks, ?_⟩
      intro run brandUrl anchors hruns hgoto hwait hanchors hcats
      simp [scrapeBrandCategories, scrapeBrandCategoriesTry, hgoto, hwait, hanchors, delay,
        hruns, hcats, hloop]

/-- In the first category the listing times out and the first save fails, the save in the
`catch` succeeds: `scrapeBrandCategories` goes on and both categories are crawled. -/
theorem scrapeCategory_returns_witness :
    ∃ self' blocks,
      scrapeBrandCategories firstCategoryRecovers
        "https://www.afastores.com/brands/brands-martin-furniture" "Martin Furniture" newScraper
        = some (.ok (), self') ∧
      self'.allProducts = newScraper.allProducts ++ blocks.flatten ∧
      List.Forall₂ (fun (category : Category) (block : List ProductRecord) =>
        block ≠ [] ∧ ∀ r ∈ block, r.category = category.name ∧ r.brand = "Martin Furniture")
        [categoryLink ⟨"https://www.afastores.com/c/chairs", some "/c/chairs", " Chairs "⟩,
         categoryLink ⟨"https://www.afastores.com/c/desks", some "/c/desks", "Desks"⟩]
        blocks := by
  obtain ⟨self', blocks, -, hall, hblocks, hbrand⟩ :=
    ((scrapeCategory_returns firstCategoryRecovers.runs "Martin Furniture"
      [categoryLink ⟨"https://www.afastores.com/c/chairs", some "/c/chairs", " Chairs "⟩,
       categoryLink ⟨"https://www.afastores.com/c/desks", some "/c/desks", "Desks"⟩]
      newScraper
      (fun i _ => Or.inl (by
        by_cases h : i = 0
        · simp only [firstCategoryRecovers, h, if_true]
          exact ⟨fun _ => rfl, rfl⟩
        · simp only [firstCategoryRecovers, h, if_false]
          exact ⟨fun _ => rfl, rfl⟩))).2
      (fun i _ => by
        by_cases h : i = 0
        · simp only [firstCategoryRecovers, h, if_true]
          rfl
        · simp only [firstCategoryRecovers, h, if_false]
          rfl)).2
  exact ⟨self', blocks,
    hbrand firstCategoryRecovers "https://www.afastores.com/brands/brands-martin-furniture"
      _ rfl rfl rfl rfl rfl, hall, hblocks⟩

/-- C9 as written fails: when the navigation to the category fails and the write of the
workbook in the `catch` fails too, `scrapeCategory` raises the error of the write; in
`scrapeBrandCategories` that error ends the loop, and the category `"Desks"` that follows
is not crawled. -/
theorem scrapeCategory_returns_counterexample :
    scrapeCategory writeFailsRun chairs "Martin Furniture" newScraper
      = some (.error .writeFile,
          { allProducts := [blankRecord "Chairs" "Martin Furniture"], requested := [],
            written := [([(codeUnits "Martin Furniture - Chairs", [⟨"", "", ""⟩])], false)] }) ∧
    scrapeBrandCategories firstCategoryRaises
        "https://www.afastores.com/brands/brands-martin-furniture" "Martin Furniture" newScraper
      = some (.ok (),
          { allProducts := [blankRecord "Chairs" "Martin Furniture"], requested := [],
            written := [([(codeUnits "Martin Furniture - Chairs", [⟨"", "", ""⟩])], false)] }) :=
  ⟨rfl, rfl⟩

end AFAStoresScraper
